import Mathlib

/-!
# pixelColorTransition.js

A shallow embedding of `src/pixelColorTransition.js`.

JavaScript numbers are doubles.  A finite double is embedded as the rational it
denotes, and every arithmetic result is rounded to the nearest double (`fl`: 53
significant bits, ties to even).  `Infinity`, `-Infinity` and `NaN` are separate
values.  Two things are left out: the exponent range (no overflow to `Infinity`, no
underflow) and the sign of zero.
-/

namespace PixelColorTransition

/-! ## JavaScript numbers -/

/-- Power of two with an integer exponent. -/
def pow2 (e : ℤ) : ℚ :=
  if 0 ≤ e then ((2 ^ e.toNat : ℕ) : ℚ) else 1 / ((2 ^ (-e).toNat : ℕ) : ℚ)

/-- Helper of `log2`: `fuel` bounds the number of halvings. -/
def log2Fuel : ℕ → ℕ → ℕ
  | 0, _ => 0
  | fuel + 1, n => if 2 ≤ n then log2Fuel fuel (n / 2) + 1 else 0

/-- Floor of the binary logarithm of a natural number (0 for 0). -/
def log2 (n : ℕ) : ℕ := log2Fuel n n

/-- Binade of a non-zero rational: the `e` with `2 ^ e ≤ |x| < 2 ^ (e + 1)`. -/
def binade (x : ℚ) : ℤ :=
  let e0 : ℤ := (log2 x.num.natAbs : ℤ) - (log2 x.den : ℤ)
  if pow2 e0 ≤ |x| then e0 else e0 - 1

/-- Nearest integer, ties to the even one. -/
def roundHalfEven (z : ℚ) : ℤ :=
  let n := ⌊z⌋
  if z - n < 1 / 2 then n
  else if 1 / 2 < z - n then n + 1
  else if n % 2 = 0 then n else n + 1

/-- Rounding of an exact result to the nearest double. -/
def fl (x : ℚ) : ℚ :=
  if x = 0 then 0
  else roundHalfEven (x / pow2 (binade x - 52)) * pow2 (binade x - 52)

/-- A JavaScript number. -/
inductive JSNumber where
  | finite (value : ℚ)
  | infinity (negative : Bool)
  | nan
deriving DecidableEq

/-- The operator `/` on numbers. -/
def jsDiv : JSNumber → JSNumber → JSNumber
  | .finite a, .finite b =>
    if b = 0 then (if a = 0 then .nan else .infinity (decide (a < 0)))
    else .finite (fl (a / b))
  | .finite _, .infinity _ => .finite 0
  | .infinity n, .finite b => .infinity (xor n (decide (b < 0)))
  | .infinity _, .infinity _ => .nan
  | .nan, _ => .nan
  | .finite _, .nan => .nan
  | .infinity _, .nan => .nan

/-- The operator `*` on numbers. -/
def jsMul : JSNumber → JSNumber → JSNumber
  | .finite a, .finite b => .finite (fl (a * b))
  | .finite a, .infinity n => if a = 0 then .nan else .infinity (xor n (decide (a < 0)))
  | .infinity n, .finite b => if b = 0 then .nan else .infinity (xor n (decide (b < 0)))
  | .infinity n, .infinity m => .infinity (xor n m)
  | .nan, _ => .nan
  | .finite _, .nan => .nan
  | .infinity _, .nan => .nan

/-- The operator `-` on numbers. -/
def jsSub : JSNumber → JSNumber → JSNumber
  | .finite a, .finite b => .finite (fl (a - b))
  | .finite _, .infinity n => .infinity (!n)
  | .infinity n, .finite _ => .infinity n
  | .infinity n, .infinity m => if n = m then .nan else .infinity n
  | .nan, _ => .nan
  | .finite _, .nan => .nan
  | .infinity _, .nan => .nan

/-- The builtin `Math.round`: nearest integer, halves rounded towards `+∞`. -/
def mathRound : JSNumber → JSNumber
  | .finite x => .finite (⌊x + 1 / 2⌋ : ℤ)
  | .infinity n => .infinity n
  | .nan => .nan

/-- The expression `x || 1` on a number: 1 when `x` is 0 or `NaN`. -/
def orOne : JSNumber → JSNumber
  | .finite x => if x = 0 then .finite 1 else .finite x
  | .infinity n => .infinity n
  | .nan => .finite 1

/-- Number of iterations of `for (let n = 0; n < bound; n++)`; `none` when the
loop does not end. -/
def loopCount : JSNumber → Option ℕ
  | .finite x => some ⌈x⌉.toNat
  | .infinity true => some 0
  | .infinity false => none
  | .nan => some 0

/-! ## Timing (lines 19-26, 121-127) -/

/-- The function `calculateFrameDurationMs` (line 22): `1000 / hertz`. -/
def calculateFrameDurationMs (hertz : JSNumber) : JSNumber := jsDiv (.finite 1000) hertz

/-- Length of `imageDatasArr` after line 122
(`if (imageDatasArr.length === 1) imageDatasArr.push(imageDatasArr[0])`). -/
def pushedLength (len : ℕ) : ℕ := if len = 1 then len + 1 else len

/-- Line 123: `transitionAmount = imageDatasArr.length - 1` (after line 122). -/
def transitionAmount (len : ℕ) : ℤ := (pushedLength len : ℤ) - 1

/-- Line 125: `Math.round(transitionDurationMs / frameDurationMs / transitionAmount) || 1`. -/
def framesPerTransition (transitionDurationMs frameDurationMs : JSNumber) (len : ℕ) : JSNumber :=
  orOne (mathRound (jsDiv (jsDiv transitionDurationMs frameDurationMs)
    (.finite (transitionAmount len : ℚ))))

/-- Line 127: `changeInTransparency = 1 / framesPerTransition`. -/
def changeInTransparency (transitionDurationMs frameDurationMs : JSNumber) (len : ℕ) : JSNumber :=
  jsDiv (.finite 1) (framesPerTransition transitionDurationMs frameDurationMs len)

/-! ## Pixel data and the canvas primitives

`ImageData`, `ImageBitmap`, `HTMLImageElement` and the 2D rendering context are
host objects.  They are embedded by the behaviour the HTML standard gives them:
the bitmap of a canvas holds premultiplied colour, `drawImage` composes with the
default `source-over` operator after scaling the source by `globalAlpha`, and
`getImageData` reads back un-premultiplied bytes, transparent black where the alpha
byte is 0.  The bitmap is kept exact (rationals in `[0,1]`) and is rounded to bytes
once, on reading.  Browsers keep the bitmap in 8-bit premultiplied form and round
at each draw in their own way, so a blended pixel may differ from the value here in
its last bits; the statements below do not rest on those bits.
-/

/-- One RGBA pixel of an `ImageData` buffer (four bytes of the `Uint8ClampedArray`). -/
structure Pixel where
  r : Fin 256
  g : Fin 256
  b : Fin 256
  a : Fin 256
deriving DecidableEq, Repr

/-- Transparent black, the value of a cleared canvas pixel. -/
def Pixel.transparent : Pixel := ⟨0, 0, 0, 0⟩

/-- An `ImageData` object: `px x y` is the pixel in column `x`, row `y`
(bytes `4 * (y * width + x) ..` of `data`). -/
structure ImageData where
  width : ℕ
  height : ℕ
  px : ℕ → ℕ → Pixel

/-- A decoded `HTMLImageElement` (an entry of `imageObjects`). -/
structure ImageObject where
  naturalWidth : ℕ
  naturalHeight : ℕ
  px : ℕ → ℕ → Pixel

/-- An `ImageBitmap`. -/
structure ImageBitmap where
  width : ℕ
  height : ℕ
  px : ℕ → ℕ → Pixel

/-- A pixel of the canvas bitmap: premultiplied colour and alpha, each in `[0,1]`. -/
structure CanvasPixel where
  r : ℚ
  g : ℚ
  b : ℚ
  a : ℚ

/-- A cleared canvas pixel. -/
def CanvasPixel.clear : CanvasPixel := ⟨0, 0, 0, 0⟩

/-- State of `offScreenCanvas` together with `offScreenContext`. -/
structure Canvas where
  width : ℕ
  height : ℕ
  globalAlpha : ℚ
  bitmap : ℕ → ℕ → CanvasPixel

/-- Lines 10-15: the off-screen canvas as created, 1 x 1 and cleared. -/
def Canvas.initial : Canvas := ⟨1, 1, 1, fun _ _ => CanvasPixel.clear⟩

/-- Assignments `offScreenCanvas.width = w; offScreenCanvas.height = h` (lines 106-107):
setting a dimension resets the context state and clears the bitmap. -/
def Canvas.setSize (_c : Canvas) (w h : ℕ) : Canvas :=
  ⟨w, h, 1, fun _ _ => CanvasPixel.clear⟩

/-- Call `clearRect(0, 0, w, h)`. -/
def Canvas.clearRect (c : Canvas) (w h : ℕ) : Canvas :=
  { c with bitmap := fun x y =>
      if x < w ∧ y < h ∧ x < c.width ∧ y < c.height then CanvasPixel.clear else c.bitmap x y }

/-- Assignment `globalAlpha = v`: infinite values, `NaN` and values outside `[0,1]`
are ignored. -/
def Canvas.setGlobalAlpha (c : Canvas) : JSNumber → Canvas
  | .finite v => if 0 ≤ v ∧ v ≤ 1 then { c with globalAlpha := v } else c
  | .infinity _ => c
  | .nan => c

/-- Source pixel as premultiplied colour, its alpha scaled by `globalAlpha`. -/
def premultiply (p : Pixel) (globalAlpha : ℚ) : CanvasPixel :=
  let a : ℚ := (p.a : ℕ) / 255 * globalAlpha
  ⟨(p.r : ℕ) / 255 * a, (p.g : ℕ) / 255 * a, (p.b : ℕ) / 255 * a, a⟩

/-- Porter-Duff `source-over` on premultiplied pixels. -/
def sourceOver (s d : CanvasPixel) : CanvasPixel :=
  ⟨s.r + d.r * (1 - s.a), s.g + d.g * (1 - s.a), s.b + d.b * (1 - s.a), s.a + d.a * (1 - s.a)⟩

/-- Call `drawImage(image, 0, 0)` for a source of size `w x h` with pixels `px`. -/
def Canvas.drawImage (c : Canvas) (w h : ℕ) (px : ℕ → ℕ → Pixel) : Canvas :=
  { c with bitmap := fun x y =>
      if x < w ∧ y < h ∧ x < c.width ∧ y < c.height then
        sourceOver (premultiply (px x y) c.globalAlpha) (c.bitmap x y)
      else c.bitmap x y }

/-- Rounding of a channel value to a byte of a `Uint8ClampedArray`. -/
def toByte (x : ℚ) : Fin 256 :=
  ⟨min 255 (⌊x + 1 / 2⌋).toNat, by omega⟩

/-- Un-premultiplied bytes of a canvas pixel; one whose alpha byte is 0 reads as
transparent black. -/
def unpremultiply (c : CanvasPixel) : Pixel :=
  if toByte (255 * c.a) = 0 then Pixel.transparent
  else ⟨toByte (255 * (c.r / c.a)), toByte (255 * (c.g / c.a)), toByte (255 * (c.b / c.a)),
        toByte (255 * c.a)⟩

/-- Call `getImageData(0, 0, sw, sh)`; pixels outside the canvas are transparent black. -/
def Canvas.getImageData (c : Canvas) (sw sh : ℕ) : ImageData :=
  ⟨sw, sh, fun x y =>
    if x < sw ∧ y < sh ∧ x < c.width ∧ y < c.height then unpremultiply (c.bitmap x y)
    else Pixel.transparent⟩

/-- Call `createImageBitmap(imageData, 0, 0, sw, sh)`: the crop rectangle, transparent
black where it leaves the source. -/
def createImageBitmap (img : ImageData) (sw sh : ℕ) : ImageBitmap :=
  ⟨sw, sh, fun x y => if x < img.width ∧ y < img.height then img.px x y else Pixel.transparent⟩

/-! ## `convertImageObjectsIntoImageDatas` (lines 93-117) -/

/-- Lines 97-102: `biggestW`, `biggestH`, both starting at 1. -/
def biggestDimensions (imageObjects : List ImageObject) : ℕ × ℕ :=
  imageObjects.foldl
    (fun acc img =>
      (if img.naturalWidth > acc.1 then img.naturalWidth else acc.1,
       if img.naturalHeight > acc.2 then img.naturalHeight else acc.2))
    (1, 1)

/-- Lines 109-114: clear the canvas, draw the image at the origin, read
`biggestW x biggestH` pixels back, for each image in order. -/
def imageDatasLoop (biggestW biggestH : ℕ) : List ImageObject → Canvas → List ImageData × Canvas
  | [], c => ([], c)
  | imageObject :: rest, c =>
    let c1 := c.clearRect c.width c.height
    let c2 := c1.drawImage imageObject.naturalWidth imageObject.naturalHeight imageObject.px
    let offScreenImageData := c2.getImageData biggestW biggestH
    let r := imageDatasLoop biggestW biggestH rest c2
    (offScreenImageData :: r.1, r.2)

/-- The function `convertImageObjectsIntoImageDatas`; the canvas is passed and returned.
The body is read up to its `return` on line 116 (the lone brace on line 103 is not
taken to end the function). -/
def convertImageObjectsIntoImageDatas (c : Canvas) (imageObjects : List ImageObject) :
    List ImageData × Canvas :=
  let biggest := biggestDimensions imageObjects
  let c1 := c.setSize biggest.1 biggest.2
  imageDatasLoop biggest.1 biggest.2 imageObjects c1

/-! ## `createTransitionImageDatasUsingCanvas` (lines 120-186) -/

/-- The object `transitionImageDatas`. -/
structure TransitionImageDatas where
  initialFrame : ImageData
  allTransitionFrames : List ImageData

/-- Line 122: a single image is pushed a second time. -/
def pushFirstIfSingle (imageDatasArr : List ImageData) : List ImageData :=
  if imageDatasArr.length = 1 then imageDatasArr ++ (imageDatasArr[0]?).toList else imageDatasArr

/-- Lines 163-176, the body of the inner loop once `changeTimes` is incremented. -/
def transitionFrame (bitmapFrom bitmapTo : ImageBitmap) (changeInTransparency : JSNumber)
    (dimensionW dimensionH : ℕ) (changeTimes : ℕ) (c : Canvas) : ImageData × Canvas :=
  let transparencyImageTo := jsMul changeInTransparency (.finite (changeTimes : ℚ))
  let transparencyImageFrom := jsSub (.finite 1) transparencyImageTo
  let c1 := c.clearRect c.width c.height
  let c2 := c1.setGlobalAlpha transparencyImageFrom
  let c3 := c2.drawImage bitmapFrom.width bitmapFrom.height bitmapFrom.px
  let c4 := c3.setGlobalAlpha transparencyImageTo
  let c5 := c4.drawImage bitmapTo.width bitmapTo.height bitmapTo.px
  (c5.getImageData dimensionW dimensionH, c5)

/-- Lines 159-177: the inner loop with `remaining` iterations to go; `changeTimes` is
the counter before the next iteration. -/
def transitionFramesLoop (bitmapFrom bitmapTo : ImageBitmap) (changeInTransparency : JSNumber)
    (dimensionW dimensionH : ℕ) : ℕ → ℕ → Canvas → List ImageData × Canvas
  | 0, _, c => ([], c)
  | remaining + 1, changeTimes, c =>
    let f := transitionFrame bitmapFrom bitmapTo changeInTransparency dimensionW dimensionH
      (changeTimes + 1) c
    let r := transitionFramesLoop bitmapFrom bitmapTo changeInTransparency dimensionW dimensionH
      remaining (changeTimes + 1) f.2
    (f.1 :: r.1, r.2)

/-- Lines 145-183: the loop over the couples `[0, 1], [1, 2], ..., [last - 1, last]`;
`iterations` is the number of rounds of the inner loop. -/
def couplesLoop (iterations : ℕ) (changeInTransparency : JSNumber)
    (dimensionW dimensionH : ℕ) : List ImageData → Canvas → List ImageData × Canvas
  | [], c => ([], c)
  | [_], c => ([], c)
  | imageDataFrom :: imageDataTo :: rest, c =>
    let bitmapFrom := createImageBitmap imageDataFrom dimensionW dimensionH
    let bitmapTo := createImageBitmap imageDataTo dimensionW dimensionH
    let t := transitionFramesLoop bitmapFrom bitmapTo changeInTransparency dimensionW dimensionH
      iterations 0 c
    let r := couplesLoop iterations changeInTransparency dimensionW dimensionH
      (imageDataTo :: rest) t.2
    (t.1 ++ r.1, r.2)

/-- The function `createTransitionImageDatasUsingCanvas` under the globals
`transitionDurationMs`, `frameDurationMs` and the off-screen canvas.  `none` stands
for no result: with no image `initialFrame` is `undefined` and reading its `width`
throws, and with `framesPerTransition = Infinity` the inner loop does not end. -/
def createTransitionImageDatasUsingCanvas (transitionDurationMs frameDurationMs : JSNumber)
    (c : Canvas) (imageDatasArr : List ImageData) : Option (TransitionImageDatas × Canvas) :=
  let arr := pushFirstIfSingle imageDatasArr
  let frames := framesPerTransition transitionDurationMs frameDurationMs imageDatasArr.length
  let change := changeInTransparency transitionDurationMs frameDurationMs imageDatasArr.length
  match arr[0]? with
  | none => none
  | some initialFrame =>
    match loopCount frames with
    | none => none
    | some iterations =>
      let r := couplesLoop iterations change initialFrame.width initialFrame.height arr c
      some (⟨initialFrame, r.1⟩, r.2)

/-! ## The submit handler and `prepareTransition` (lines 31-67) -/

/-- The globals `hertz`, `frameDurationMs`, `transitionDurationMs`. -/
structure Settings where
  hertz : JSNumber
  frameDurationMs : JSNumber
  transitionDurationMs : JSNumber

/-- Lines 20-26. -/
def Settings.initial : Settings :=
  ⟨.finite 60, calculateFrameDurationMs (.finite 60), .finite 1000⟩

/-- An entry of the submitted form: an image file (identified with its decoded
image), the field `duration`, the field `hertz` (both as `Number(input)` reads
them), or anything else. -/
inductive FormEntry where
  | image (file : ImageObject)
  | duration (input : JSNumber)
  | hertz (input : JSNumber)
  | other

/-- Lines 38-48: one entry of the form. -/
def submitEntry (acc : List ImageObject × Settings) : FormEntry → List ImageObject × Settings
  | .image file => (acc.1 ++ [file], acc.2)
  | .duration input =>
    (acc.1, { acc.2 with transitionDurationMs := jsMul input (.finite 1000) })
  | .hertz input => (acc.1, { acc.2 with hertz := input,
                                         frameDurationMs := calculateFrameDurationMs input })
  | .other => acc

/-- The function `prepareTransition` on the decoded images (lines 60-63). -/
def prepareTransition (s : Settings) (c : Canvas) (imageObjects : List ImageObject) :
    Option (TransitionImageDatas × Canvas) :=
  let imageDatas := convertImageObjectsIntoImageDatas c imageObjects
  createTransitionImageDatasUsingCanvas s.transitionDurationMs s.frameDurationMs
    imageDatas.2 imageDatas.1

/-- The submit handler (lines 31-51): the new settings and what `prepareTransition`
stores in `transitionImageDatas`. -/
def submit (s : Settings) (c : Canvas) (formData : List FormEntry) :
    Settings × Option (TransitionImageDatas × Canvas) :=
  let r := formData.foldl submitEntry ([], s)
  (r.2, prepareTransition r.2 c r.1)

/-! ## `renderTransition` (lines 190-214) -/

/-- State of a playback: the counter `frameIndex`, whether a
`requestAnimationFrame` callback is pending, and the `putImageData` calls made on
the output canvas so far, in order. -/
structure Playback where
  frameIndex : ℕ
  pending : Bool
  drawn : List ImageData
  outputWidth : ℕ
  outputHeight : ℕ

/-- Lines 191-203: size the output canvas, draw `initialFrame`, request the first
callback. -/
def renderTransition (t : TransitionImageDatas) : Playback :=
  ⟨0, true, [t.initialFrame], t.initialFrame.width, t.initialFrame.height⟩

/-- Lines 205-213, the callback: `allTransitionFrames[frameIndex]` is drawn
(`putImageData(undefined, ..)` throws: `none`), the counter is incremented and another
callback is requested unless the counter equals `totalFrames`. -/
def requestAnimationFrameInterval (t : TransitionImageDatas) (s : Playback) : Option Playback :=
  match t.allTransitionFrames[s.frameIndex]? with
  | none => none
  | some frame =>
    some { s with frameIndex := s.frameIndex + 1,
                  pending := decide (s.frameIndex + 1 ≠ t.allTransitionFrames.length),
                  drawn := s.drawn ++ [frame] }

/-- One repaint tick: the pending callback, if any, runs. -/
def tick (t : TransitionImageDatas) (s : Playback) : Option Playback :=
  if s.pending then requestAnimationFrameInterval t s else some s

/-- The first `n` repaint ticks after `renderTransition`. -/
def ticks (t : TransitionImageDatas) : ℕ → Playback → Option Playback
  | 0, s => some s
  | n + 1, s => (tick t s).bind (ticks t n)

/-! ## Concrete inputs -/

/-- Opaque red. -/
def red : Pixel := ⟨255, 0, 0, 255⟩

/-- Opaque blue. -/
def blue : Pixel := ⟨0, 0, 255, 255⟩

/-- Image A of the scenario: 2 x 1, opaque red. -/
def imageA : ImageData := ⟨2, 1, fun _ _ => red⟩

/-- Image B of the scenario: 2 x 1, opaque blue. -/
def imageB : ImageData := ⟨2, 1, fun _ _ => blue⟩

/-- The off-screen canvas sized for 2 x 1 images. -/
def canvas2x1 : Canvas := Canvas.initial.setSize 2 1

/-- Decoded image file A of the scenario: 2 x 1, opaque red. -/
def imageObjectA : ImageObject := ⟨2, 1, fun _ _ => red⟩

/-- Decoded image file B of the scenario: 2 x 1, opaque blue. -/
def imageObjectB : ImageObject := ⟨2, 1, fun _ _ => blue⟩

/-- A decoded image of 1 x 2 pixels, half transparent green. -/
def imageObjectC : ImageObject := ⟨1, 2, fun _ _ => ⟨0, 255, 0, 128⟩⟩

/-- Images A (2 x 1) and C (1 x 2) after `convertImageObjectsIntoImageDatas`: two
2 x 2 buffers with transparent padding. -/
def normalizedAC : List ImageData :=
  (convertImageObjectsIntoImageDatas Canvas.initial [imageObjectA, imageObjectC]).1

/-- The canvas `convertImageObjectsIntoImageDatas` leaves after images A and C. -/
def canvasAC : Canvas :=
  (convertImageObjectsIntoImageDatas Canvas.initial [imageObjectA, imageObjectC]).2

/-! ## Named values for the statements -/

/-- Value of `transitionDurationMs / frameDurationMs / transitionAmount` (line 125) for
finite operands: two divisions, each rounded to a double. -/
def scheduleQuotient (transitionDurationMs frameDurationMs : ℚ) (len : ℕ) : ℚ :=
  fl (fl (transitionDurationMs / frameDurationMs) / (transitionAmount len : ℚ))

/-- Value of `Math.round(q) || 1` for a finite `q`. -/
def roundOrOne (q : ℚ) : ℤ := if ⌊q + 1 / 2⌋ = 0 then 1 else ⌊q + 1 / 2⌋

/-- What `convertImageObjectsIntoImageDatas` establishes for its output and the canvas
it leaves: every buffer has the size of the canvas, and a pixel of alpha 0 is
transparent black. -/
def Normalized (c : Canvas) (imageDatas : List ImageData) : Prop :=
  ∀ img ∈ imageDatas, img.width = c.width ∧ img.height = c.height ∧
    ∀ x y, (img.px x y).a = 0 → img.px x y = Pixel.transparent

/-- The blend as the specification words it, per channel:
`round(from_channel * (1 - opacityTo) + to_channel * opacityTo)`. -/
def linearBlendPixel (pxFrom pxTo : Pixel) (opacityTo : ℚ) : Pixel :=
  ⟨toByte ((pxFrom.r : ℕ) * (1 - opacityTo) + (pxTo.r : ℕ) * opacityTo),
   toByte ((pxFrom.g : ℕ) * (1 - opacityTo) + (pxTo.g : ℕ) * opacityTo),
   toByte ((pxFrom.b : ℕ) * (1 - opacityTo) + (pxTo.b : ℕ) * opacityTo),
   toByte ((pxFrom.a : ℕ) * (1 - opacityTo) + (pxTo.a : ℕ) * opacityTo)⟩

/-! ## Theorems -/

theorem pow2_eq (e : ℤ) : pow2 e = (2 : ℚ) ^ e := by
  unfold pow2
  split_ifs with h
  · obtain ⟨n, rfl⟩ := Int.eq_ofNat_of_zero_le h
    simp
  · have hneg : 0 ≤ -e := by omega
    obtain ⟨n, hn⟩ := Int.eq_ofNat_of_zero_le hneg
    have he : e = -(n : ℤ) := by omega
    subst he
    simp

theorem pow2_pos (e : ℤ) : 0 < pow2 e := by
  rw [pow2_eq]
  positivity

theorem pow2_add (a b : ℤ) : pow2 (a + b) = pow2 a * pow2 b := by
  simp only [pow2_eq]
  exact zpow_add₀ (by norm_num) a b

theorem pow2_le_pow2 {a b : ℤ} (h : a ≤ b) : pow2 a ≤ pow2 b := by
  simp only [pow2_eq]
  exact zpow_le_zpow_right₀ (by norm_num) h

theorem pow2_lt_pow2 {a b : ℤ} (h : a < b) : pow2 a < pow2 b := by
  simp only [pow2_eq]
  exact zpow_lt_zpow_right₀ (by norm_num) h

theorem pow2_lt_pow2_iff {a b : ℤ} : pow2 a < pow2 b ↔ a < b := by
  constructor
  · intro h
    by_contra hcon
    exact absurd (pow2_le_pow2 (not_lt.mp hcon)) (not_le.mpr h)
  · exact pow2_lt_pow2

theorem log2Fuel_spec (fuel n : ℕ) (hf : n ≤ fuel) (hn : 1 ≤ n) :
    2 ^ log2Fuel fuel n ≤ n ∧ n < 2 ^ (log2Fuel fuel n + 1) := by
  induction fuel generalizing n with
  | zero => omega
  | succ fuel ih =>
    unfold log2Fuel
    split_ifs with h2
    · obtain ⟨h1, h3⟩ := ih (n / 2) (by omega) (by omega)
      constructor
      · calc 2 ^ (log2Fuel fuel (n / 2) + 1) = 2 ^ log2Fuel fuel (n / 2) * 2 := pow_succ _ _
          _ ≤ n / 2 * 2 := Nat.mul_le_mul_right 2 h1
          _ ≤ n := Nat.div_mul_le_self n 2
      · have : n < (n / 2 + 1) * 2 := by omega
        calc n < (n / 2 + 1) * 2 := this
          _ ≤ 2 ^ (log2Fuel fuel (n / 2) + 1) * 2 := Nat.mul_le_mul_right 2 h3
          _ = 2 ^ (log2Fuel fuel (n / 2) + 1 + 1) := (pow_succ _ _).symm
    · constructor
      · simp only [pow_zero]; exact hn
      · simp only [zero_add, pow_one]; omega

theorem log2_spec (n : ℕ) (hn : 1 ≤ n) : 2 ^ log2 n ≤ n ∧ n < 2 ^ (log2 n + 1) :=
  log2Fuel_spec n n le_rfl hn

theorem abs_eq_natAbs_div (x : ℚ) : |x| = (x.num.natAbs : ℚ) / (x.den : ℚ) := by
  have hden : (0 : ℚ) < (x.den : ℚ) := by exact_mod_cast x.den_pos
  conv_lhs => rw [← Rat.num_div_den x]
  rw [abs_div, abs_of_pos hden, Nat.cast_natAbs, Int.cast_abs]

theorem binade_spec (x : ℚ) (hx : x ≠ 0) :
    pow2 (binade x) ≤ |x| ∧ |x| < pow2 (binade x + 1) := by
  have hden : (0 : ℚ) < (x.den : ℚ) := by exact_mod_cast x.den_pos
  have hnum1 : 1 ≤ x.num.natAbs := by
    have : x.num ≠ 0 := Rat.num_ne_zero.mpr hx
    omega
  obtain ⟨ha1, ha2⟩ := log2_spec x.num.natAbs hnum1
  obtain ⟨hb1, hb2⟩ := log2_spec x.den x.den_pos
  have ha1q : ((2 : ℚ) ^ log2 x.num.natAbs) ≤ (x.num.natAbs : ℚ) := by exact_mod_cast ha1
  have ha2q : (x.num.natAbs : ℚ) < (2 : ℚ) ^ (log2 x.num.natAbs + 1) := by exact_mod_cast ha2
  have hb1q : ((2 : ℚ) ^ log2 x.den) ≤ (x.den : ℚ) := by exact_mod_cast hb1
  have hb2q : (x.den : ℚ) < (2 : ℚ) ^ (log2 x.den + 1) := by exact_mod_cast hb2
  have habs := abs_eq_natAbs_div x
  set a : ℚ := (x.num.natAbs : ℚ) with ha
  set b : ℚ := (x.den : ℚ) with hb
  set la := log2 x.num.natAbs with hla
  set lb := log2 x.den with hlb
  have hpa : (0 : ℚ) < (2 : ℚ) ^ la := by positivity
  have hpb : (0 : ℚ) < (2 : ℚ) ^ lb := by positivity
  -- bounds on |x| in terms of e0 = la - lb
  have hup : |x| < pow2 ((la : ℤ) - (lb : ℤ) + 1) := by
    rw [habs, pow2_eq, div_lt_iff₀ hden]
    have h1 : (2 : ℚ) ^ ((la : ℤ) - (lb : ℤ) + 1) * (2 : ℚ) ^ lb = (2 : ℚ) ^ (la + 1) := by
      rw [← zpow_natCast (2 : ℚ) lb, ← zpow_add₀ (by norm_num : (2 : ℚ) ≠ 0),
        ← zpow_natCast (2 : ℚ) (la + 1)]
      congr 1
      push_cast
      ring
    calc a < (2 : ℚ) ^ (la + 1) := ha2q
      _ = (2 : ℚ) ^ ((la : ℤ) - (lb : ℤ) + 1) * (2 : ℚ) ^ lb := h1.symm
      _ ≤ (2 : ℚ) ^ ((la : ℤ) - (lb : ℤ) + 1) * b :=
        mul_le_mul_of_nonneg_left hb1q (by positivity)
  have hlow : pow2 ((la : ℤ) - (lb : ℤ) - 1) ≤ |x| := by
    rw [habs, pow2_eq, le_div_iff₀ hden]
    have h1 : (2 : ℚ) ^ ((la : ℤ) - (lb : ℤ) - 1) * (2 : ℚ) ^ (lb + 1) = (2 : ℚ) ^ la := by
      rw [← zpow_natCast (2 : ℚ) (lb + 1), ← zpow_add₀ (by norm_num : (2 : ℚ) ≠ 0),
        ← zpow_natCast (2 : ℚ) la]
      congr 1
      push_cast
      ring
    calc (2 : ℚ) ^ ((la : ℤ) - (lb : ℤ) - 1) * b
        ≤ (2 : ℚ) ^ ((la : ℤ) - (lb : ℤ) - 1) * (2 : ℚ) ^ (lb + 1) :=
          mul_le_mul_of_nonneg_left hb2q.le (by positivity)
      _ = (2 : ℚ) ^ la := h1
      _ ≤ a := ha1q
  unfold binade
  simp only [← hla, ← hlb]
  split_ifs with h
  · exact ⟨h, hup⟩
  · refine ⟨hlow, ?_⟩
    rw [sub_add_cancel]
    exact not_le.mp h

theorem binade_unique (x : ℚ) (e : ℤ) (h1 : pow2 e ≤ |x|) (h2 : |x| < pow2 (e + 1)) :
    binade x = e := by
  have hx : x ≠ 0 := by
    intro h0
    rw [h0, abs_zero] at h1
    exact absurd h1 (not_le.mpr (pow2_pos e))
  obtain ⟨h3, h4⟩ := binade_spec x hx
  have ha : binade x < e + 1 := pow2_lt_pow2_iff.mp (lt_of_le_of_lt h3 h2)
  have hb : e < binade x + 1 := pow2_lt_pow2_iff.mp (lt_of_le_of_lt h1 h4)
  omega

theorem roundHalfEven_sub_le (z : ℚ) :
    (roundHalfEven z : ℚ) - z ≤ 1 / 2 ∧ z - (roundHalfEven z : ℚ) ≤ 1 / 2 := by
  have h1 : ((⌊z⌋ : ℤ) : ℚ) ≤ z := Int.floor_le z
  have h2 : z < ((⌊z⌋ : ℤ) : ℚ) + 1 := Int.lt_floor_add_one z
  unfold roundHalfEven
  simp only
  split_ifs with ha hb hc
  · constructor <;> linarith
  · push_cast
    constructor <;> linarith
  · constructor <;> linarith
  · push_cast
    constructor <;> linarith

theorem roundHalfEven_floor_le (z : ℚ) : ⌊z⌋ ≤ roundHalfEven z := by
  unfold roundHalfEven
  simp only
  split_ifs <;> omega

theorem roundHalfEven_le_floor_succ (z : ℚ) : roundHalfEven z ≤ ⌊z⌋ + 1 := by
  unfold roundHalfEven
  simp only
  split_ifs <;> omega

theorem roundHalfEven_mono {z w : ℚ} (h : z ≤ w) : roundHalfEven z ≤ roundHalfEven w := by
  have hfl : ⌊z⌋ ≤ ⌊w⌋ := Int.floor_le_floor h
  rcases lt_or_eq_of_le hfl with hlt | heq
  · calc roundHalfEven z ≤ ⌊z⌋ + 1 := roundHalfEven_le_floor_succ z
      _ ≤ ⌊w⌋ := hlt
      _ ≤ roundHalfEven w := roundHalfEven_floor_le w
  · unfold roundHalfEven
    simp only [heq]
    split_ifs <;> first | omega | (exfalso; linarith)

theorem roundHalfEven_intCast (n : ℤ) : roundHalfEven (n : ℚ) = n := by
  unfold roundHalfEven
  simp

theorem roundHalfEven_le_of_le_intCast (z : ℚ) (n : ℤ) (h : z ≤ n) : roundHalfEven z ≤ n := by
  have := roundHalfEven_mono h
  rwa [roundHalfEven_intCast] at this

theorem roundHalfEven_ge_of_intCast_le (z : ℚ) (n : ℤ) (h : (n : ℚ) ≤ z) : n ≤ roundHalfEven z := by
  have := roundHalfEven_mono h
  rwa [roundHalfEven_intCast] at this

/-- The significand of a non-zero number lies in `[2^52, 2^53)`. -/
theorem significand_range (x : ℚ) (hx : 0 < x) :
    ((2 ^ 52 : ℤ) : ℚ) ≤ x / pow2 (binade x - 52) ∧
    x / pow2 (binade x - 52) < ((2 ^ 53 : ℤ) : ℚ) := by
  obtain ⟨h1, h2⟩ := binade_spec x hx.ne'
  rw [abs_of_pos hx] at h1 h2
  have hu := pow2_pos (binade x - 52)
  have e1 : pow2 (binade x) = ((2 ^ 52 : ℤ) : ℚ) * pow2 (binade x - 52) := by
    have : binade x = 52 + (binade x - 52) := by ring
    conv_lhs => rw [this, pow2_add]
    congr 1
  have e2 : pow2 (binade x + 1) = ((2 ^ 53 : ℤ) : ℚ) * pow2 (binade x - 52) := by
    have : binade x + 1 = 53 + (binade x - 52) := by ring
    conv_lhs => rw [this, pow2_add]
    congr 1
  constructor
  · rw [le_div_iff₀ hu, ← e1]; exact h1
  · rw [div_lt_iff₀ hu, ← e2]; exact h2

theorem fl_of_pos (x : ℚ) (hx : 0 < x) :
    fl x = roundHalfEven (x / pow2 (binade x - 52)) * pow2 (binade x - 52) := by
  unfold fl
  rw [if_neg hx.ne']

/-- A positive number rounds into the closure of its binade. -/
theorem fl_mem_binade (x : ℚ) (hx : 0 < x) :
    pow2 (binade x) ≤ fl x ∧ fl x ≤ pow2 (binade x + 1) := by
  obtain ⟨h1, h2⟩ := significand_range x hx
  have hu := pow2_pos (binade x - 52)
  have e1 : pow2 (binade x) = ((2 ^ 52 : ℤ) : ℚ) * pow2 (binade x - 52) := by
    have : binade x = 52 + (binade x - 52) := by ring
    conv_lhs => rw [this, pow2_add]
    congr 1
  have e2 : pow2 (binade x + 1) = ((2 ^ 53 : ℤ) : ℚ) * pow2 (binade x - 52) := by
    have : binade x + 1 = 53 + (binade x - 52) := by ring
    conv_lhs => rw [this, pow2_add]
    congr 1
  have r1 : ((2 ^ 52 : ℤ) : ℚ) ≤ (roundHalfEven (x / pow2 (binade x - 52)) : ℚ) := by
    exact_mod_cast roundHalfEven_ge_of_intCast_le _ _ h1
  have r2 : (roundHalfEven (x / pow2 (binade x - 52)) : ℚ) ≤ ((2 ^ 53 : ℤ) : ℚ) := by
    exact_mod_cast roundHalfEven_le_of_le_intCast _ _ h2.le
  rw [fl_of_pos x hx, e1, e2]
  exact ⟨mul_le_mul_of_nonneg_right r1 hu.le, mul_le_mul_of_nonneg_right r2 hu.le⟩

theorem fl_pos (x : ℚ) (hx : 0 < x) : 0 < fl x :=
  lt_of_lt_of_le (pow2_pos _) (fl_mem_binade x hx).1

theorem fl_zero : fl 0 = 0 := by
  unfold fl
  rw [if_pos rfl]

theorem fl_nonneg (x : ℚ) (hx : 0 ≤ x) : 0 ≤ fl x := by
  rcases hx.lt_or_eq with h | h
  · exact (fl_pos x h).le
  · rw [← h, fl_zero]

theorem fl_mono_nonneg {x y : ℚ} (hx : 0 ≤ x) (hxy : x ≤ y) : fl x ≤ fl y := by
  rcases hx.lt_or_eq with hpos | h0
  · have hy : 0 < y := lt_of_lt_of_le hpos hxy
    obtain ⟨hx1, hx2⟩ := binade_spec x hpos.ne'
    obtain ⟨hy1, hy2⟩ := binade_spec y hy.ne'
    rw [abs_of_pos hpos] at hx1 hx2
    rw [abs_of_pos hy] at hy1 hy2
    have hle : binade x ≤ binade y := by
      have : binade x < binade y + 1 :=
        pow2_lt_pow2_iff.mp (lt_of_le_of_lt hx1 (lt_of_le_of_lt hxy hy2))
      omega
    rcases hle.lt_or_eq with hlt | heq
    · calc fl x ≤ pow2 (binade x + 1) := (fl_mem_binade x hpos).2
        _ ≤ pow2 (binade y) := pow2_le_pow2 (by omega)
        _ ≤ fl y := (fl_mem_binade y hy).1
    · rw [fl_of_pos x hpos, fl_of_pos y hy, heq]
      have hu := pow2_pos (binade y - 52)
      apply mul_le_mul_of_nonneg_right _ hu.le
      have : x / pow2 (binade y - 52) ≤ y / pow2 (binade y - 52) :=
        div_le_div_of_nonneg_right hxy hu.le
      exact_mod_cast roundHalfEven_mono this
  · rw [← h0, fl_zero]
    exact fl_nonneg y (h0 ▸ hxy)

/-- Relative error of one rounding. -/
theorem fl_rel_error (x : ℚ) (hx : 0 < x) : |fl x - x| ≤ x * pow2 (-53) := by
  obtain ⟨h1, _⟩ := binade_spec x hx.ne'
  rw [abs_of_pos hx] at h1
  have hu := pow2_pos (binade x - 52)
  obtain ⟨r1, r2⟩ := roundHalfEven_sub_le (x / pow2 (binade x - 52))
  have hx' : x = x / pow2 (binade x - 52) * pow2 (binade x - 52) := by
    field_simp
  have e3 : pow2 (binade x - 52) = 2 * (pow2 (binade x) * pow2 (-53)) := by
    have : binade x - 52 = 1 + (binade x + -53) := by ring
    rw [this, pow2_add, pow2_add]
    congr 1
  have hb : pow2 (binade x) * pow2 (-53) ≤ x * pow2 (-53) :=
    mul_le_mul_of_nonneg_right h1 (pow2_pos _).le
  rw [fl_of_pos x hx, abs_le]
  set z := x / pow2 (binade x - 52) with hz
  set u := pow2 (binade x - 52) with hudef
  constructor
  · have : (z - (roundHalfEven z : ℚ)) * u ≤ 1 / 2 * u := mul_le_mul_of_nonneg_right r2 hu.le
    nlinarith
  · have : ((roundHalfEven z : ℚ) - z) * u ≤ 1 / 2 * u := mul_le_mul_of_nonneg_right r1 hu.le
    nlinarith

theorem pow2_neg53 : pow2 (-53) = 1 / 2 ^ 53 := by
  rw [pow2_eq]
  norm_num [zpow_neg]

theorem pushedLength_eq_max (len : ℕ) (h : 1 ≤ len) : pushedLength len = max len 2 := by
  unfold pushedLength
  split_ifs with h1
  · subst h1; rfl
  · omega

theorem transitionAmount_eq (len : ℕ) (h : 1 ≤ len) :
    transitionAmount len = ((max len 2 : ℕ) : ℤ) - 1 := by
  unfold transitionAmount
  rw [pushedLength_eq_max len h]

theorem transitionAmount_pos (len : ℕ) (h : 1 ≤ len) : 1 ≤ transitionAmount len := by
  rw [transitionAmount_eq len h]
  have : 2 ≤ max len 2 := le_max_right _ _
  omega

theorem transitionAmount_ne_zero (len : ℕ) : (transitionAmount len : ℚ) ≠ 0 := by
  have h : transitionAmount len ≠ 0 := by
    unfold transitionAmount pushedLength
    split_ifs <;> omega
  exact_mod_cast h

theorem jsDiv_finite (a b : ℚ) (hb : b ≠ 0) :
    jsDiv (.finite a) (.finite b) = .finite (fl (a / b)) := by
  simp [jsDiv, hb]

theorem jsMul_finite (a b : ℚ) : jsMul (.finite a) (.finite b) = .finite (fl (a * b)) := rfl

theorem jsSub_finite (a b : ℚ) : jsSub (.finite a) (.finite b) = .finite (fl (a - b)) := rfl

/-- For finite operands and a non-zero frame duration line 125 computes
`Math.round(q) || 1` of the rounded quotient. -/
theorem framesPerTransition_finite (d fd : ℚ) (len : ℕ) (hfd : fd ≠ 0) :
    framesPerTransition (.finite d) (.finite fd) len
      = .finite ((roundOrOne (scheduleQuotient d fd len) : ℤ) : ℚ) := by
  unfold framesPerTransition
  rw [jsDiv_finite _ _ hfd, jsDiv_finite _ _ (transitionAmount_ne_zero len)]
  unfold mathRound orOne roundOrOne scheduleQuotient
  simp only
  split_ifs with h1 h2 h2
  · simp
  · exact absurd (by exact_mod_cast h1) h2
  · rw [h2] at h1; simp at h1
  · rfl

theorem scheduleQuotient_pos (d fd : ℚ) (len : ℕ) (hN : 1 ≤ len) (hd : 0 < d) (hf : 0 < fd) :
    0 < scheduleQuotient d fd len := by
  have hT : (0 : ℚ) < (transitionAmount len : ℚ) := by
    have := transitionAmount_pos len hN
    exact_mod_cast this
  unfold scheduleQuotient
  exact fl_pos _ (div_pos (fl_pos _ (div_pos hd hf)) hT)

theorem roundOrOne_of_nonneg (q : ℚ) (hq : 0 ≤ q) : roundOrOne q = max 1 ⌊q + 1 / 2⌋ := by
  have h0 : 0 ≤ ⌊q + 1 / 2⌋ := Int.floor_nonneg.mpr (by linarith)
  unfold roundOrOne
  split_ifs with hr
  · rw [hr]; rfl
  · rw [max_eq_right]; omega

theorem roundOrOne_pos (d fd : ℚ) (len : ℕ) (hN : 1 ≤ len) (hd : 0 < d) (hf : 0 < fd) :
    1 ≤ roundOrOne (scheduleQuotient d fd len) := by
  rw [roundOrOne_of_nonneg _ (scheduleQuotient_pos d fd len hN hd hf).le]
  exact le_max_left _ _

/-- Claim C5: for imageCount >= 1, totalDurationMs > 0 and frameIntervalMs > 0 the
pair count is max(imageCount, 2) - 1, the quotient q of line 125 is the finite double
scheduleQuotient (two rounded divisions), framesPerTransition is
max(1, floor(q + 1/2)), which is at least 1, and changeInTransparency is
1 / framesPerTransition. -/
theorem scheduler_framesPerPair (imageCount : ℕ) (totalDurationMs frameIntervalMs : ℚ)
    (hN : 1 ≤ imageCount) (hd : 0 < totalDurationMs) (hf : 0 < frameIntervalMs) :
    transitionAmount imageCount = ((max imageCount 2 : ℕ) : ℤ) - 1 ∧
    jsDiv (jsDiv (.finite totalDurationMs) (.finite frameIntervalMs))
        (.finite (transitionAmount imageCount : ℚ))
      = .finite (scheduleQuotient totalDurationMs frameIntervalMs imageCount) ∧
    framesPerTransition (.finite totalDurationMs) (.finite frameIntervalMs) imageCount
      = .finite ((max 1 ⌊scheduleQuotient totalDurationMs frameIntervalMs imageCount + 1 / 2⌋
          : ℤ) : ℚ) ∧
    (1 : ℤ) ≤ max 1 ⌊scheduleQuotient totalDurationMs frameIntervalMs imageCount + 1 / 2⌋ ∧
    changeInTransparency (.finite totalDurationMs) (.finite frameIntervalMs) imageCount
      = jsDiv (.finite 1)
          (framesPerTransition (.finite totalDurationMs) (.finite frameIntervalMs) imageCount) := by
  refine ⟨transitionAmount_eq imageCount hN, ?_, ?_, le_max_left _ _, rfl⟩
  · rw [jsDiv_finite _ _ hf.ne', jsDiv_finite _ _ (transitionAmount_ne_zero imageCount)]
    rfl
  · rw [framesPerTransition_finite _ _ _ hf.ne',
      roundOrOne_of_nonneg _ (scheduleQuotient_pos _ _ _ hN hd hf).le]

theorem scheduler_framesPerPair_witness :
    (1 ≤ 3 ∧ (0 : ℚ) < 1000 ∧ (0 : ℚ) < fl (1000 / 60)) ∧
    (calculateFrameDurationMs (.finite 60) = .finite (fl (1000 / 60)) ∧
      transitionAmount 3 = 2 ∧
      framesPerTransition (.finite 1000) (.finite (fl (1000 / 60))) 3 = .finite 30 ∧
      changeInTransparency (.finite 1000) (.finite (fl (1000 / 60))) 3
        = .finite (fl (1 / 30)) ∧
      framesPerTransition (.finite 500) (calculateFrameDurationMs (.finite 7)) 2 = .finite 4) ∧
    (transitionAmount 3 = ((max 3 2 : ℕ) : ℤ) - 1 ∧
    jsDiv (jsDiv (.finite 1000) (.finite (fl (1000 / 60)))) (.finite (transitionAmount 3 : ℚ))
      = .finite (scheduleQuotient 1000 (fl (1000 / 60)) 3) ∧
    framesPerTransition (.finite 1000) (.finite (fl (1000 / 60))) 3
      = .finite ((max 1 ⌊scheduleQuotient 1000 (fl (1000 / 60)) 3 + 1 / 2⌋ : ℤ) : ℚ) ∧
    (1 : ℤ) ≤ max 1 ⌊scheduleQuotient 1000 (fl (1000 / 60)) 3 + 1 / 2⌋ ∧
    changeInTransparency (.finite 1000) (.finite (fl (1000 / 60))) 3
      = jsDiv (.finite 1) (framesPerTransition (.finite 1000) (.finite (fl (1000 / 60))) 3)) :=
  ⟨⟨by decide, by norm_num, by decide!⟩, by decide!,
    scheduler_framesPerPair 3 1000 (fl (1000 / 60)) (by decide) (by norm_num) (by decide!)⟩

/-- Error of the rounded quotient of line 125 against the exact one. -/
theorem scheduleQuotient_error (d fd : ℚ) (len : ℕ) (hN : 1 ≤ len) (hd : 0 < d) (hf : 0 < fd) :
    |scheduleQuotient d fd len - d / fd / (transitionAmount len : ℚ)|
      ≤ d / fd / (transitionAmount len : ℚ) * (1 / 2 ^ 51) := by
  have hT : (0 : ℚ) < (transitionAmount len : ℚ) := by
    have := transitionAmount_pos len hN
    exact_mod_cast this
  set T : ℚ := (transitionAmount len : ℚ) with hTdef
  have ha : 0 < d / fd := div_pos hd hf
  have hah : 0 < fl (d / fd) := fl_pos _ ha
  have e1 := fl_rel_error (d / fd) ha
  have e2 := fl_rel_error (fl (d / fd) / T) (div_pos hah hT)
  rw [pow2_neg53] at e1 e2
  rw [abs_le] at e1 e2 ⊢
  unfold scheduleQuotient
  rw [← hTdef]
  set a := d / fd with hadef
  set ah := fl a with hahdef
  set qh := fl (ah / T) with hqh
  have hu : (0 : ℚ) < 1 / 2 ^ 53 := by positivity
  -- divide the first error by T
  have d1 : -(a / T * (1 / 2 ^ 53)) ≤ ah / T - a / T := by
    have := div_le_div_of_nonneg_right e1.1 hT.le
    have h2 : -(a * (1 / 2 ^ 53)) / T = -(a / T * (1 / 2 ^ 53)) := by ring
    have h3 : (ah - a) / T = ah / T - a / T := by ring
    rw [h2, h3] at this
    exact this
  have d2 : ah / T - a / T ≤ a / T * (1 / 2 ^ 53) := by
    have := div_le_div_of_nonneg_right e1.2 hT.le
    have h2 : a * (1 / 2 ^ 53) / T = a / T * (1 / 2 ^ 53) := by ring
    have h3 : (ah - a) / T = ah / T - a / T := by ring
    rw [h2, h3] at this
    exact this
  have hq : 0 < a / T := div_pos ha hT
  have hb : ah / T ≤ a / T * (1 + 1 / 2 ^ 53) := by linarith
  have hb0 : 0 < ah / T := div_pos hah hT
  have hsmall : ah / T * (1 / 2 ^ 53) ≤ a / T * (1 + 1 / 2 ^ 53) * (1 / 2 ^ 53) :=
    mul_le_mul_of_nonneg_right hb hu.le
  have hk : a / T * (1 + 1 / 2 ^ 53) * (1 / 2 ^ 53) + a / T * (1 / 2 ^ 53)
      ≤ a / T * (1 / 2 ^ 51) := by
    have : (1 + 1 / 2 ^ 53) * (1 / 2 ^ 53) + 1 / 2 ^ 53 ≤ (1 : ℚ) / 2 ^ 51 := by norm_num
    nlinarith
  constructor <;> linarith [e2.1, e2.2]

/-- Claim C10 fails as stated: at 500 ms, 7 Hz (frame interval the double 1000/7) and
two images the quotient is 7/2, framesPerTransition is 4, and 4 frame intervals
differ from 500 ms by more than half a frame interval. -/
theorem playback_time_error_exceeds_bound :
    (1 : ℚ) / 2 ≤ scheduleQuotient 500 (fl (1000 / 7)) 2 ∧
    calculateFrameDurationMs (.finite 7) = .finite (fl (1000 / 7)) ∧
    transitionAmount 2 = 1 ∧
    framesPerTransition (.finite 500) (.finite (fl (1000 / 7))) 2 = .finite 4 ∧
    ¬ (|((transitionAmount 2 : ℤ) : ℚ) * 4 * fl (1000 / 7) - 500|
        ≤ ((transitionAmount 2 : ℤ) : ℚ) * fl (1000 / 7) / 2) := by
  decide!

/-- Claim C10, amended: when the quotient q that line 125 computes is at least 1/2,
framesPerTransition is floor(q + 1/2) and the playback time
pairCount * framesPerTransition * frameIntervalMs differs from totalDurationMs by at
most pairCount * frameIntervalMs / 2 + totalDurationMs * 2^-51. -/
theorem playback_time_error (imageCount : ℕ) (totalDurationMs frameIntervalMs : ℚ)
    (hN : 1 ≤ imageCount) (hd : 0 < totalDurationMs) (hf : 0 < frameIntervalMs)
    (hq : 1 / 2 ≤ scheduleQuotient totalDurationMs frameIntervalMs imageCount) :
    ∃ f : ℤ,
      framesPerTransition (.finite totalDurationMs) (.finite frameIntervalMs) imageCount
        = .finite (f : ℚ) ∧
      f = ⌊scheduleQuotient totalDurationMs frameIntervalMs imageCount + 1 / 2⌋ ∧
      |(transitionAmount imageCount : ℚ) * (f : ℚ) * frameIntervalMs - totalDurationMs|
        ≤ (transitionAmount imageCount : ℚ) * frameIntervalMs / 2
          + totalDurationMs * (1 / 2 ^ 51) := by
  have hT : (0 : ℚ) < (transitionAmount imageCount : ℚ) := by
    have := transitionAmount_pos imageCount hN
    exact_mod_cast this
  have herr := scheduleQuotient_error totalDurationMs frameIntervalMs imageCount hN hd hf
  set T : ℚ := (transitionAmount imageCount : ℚ) with hTdef
  set qh : ℚ := scheduleQuotient totalDurationMs frameIntervalMs imageCount with hqh
  set q : ℚ := totalDurationMs / frameIntervalMs / T with hqdef
  have h1 : (1 : ℤ) ≤ ⌊qh + 1 / 2⌋ := Int.le_floor.mpr (by push_cast; linarith)
  have hfr : roundOrOne qh = ⌊qh + 1 / 2⌋ := by
    unfold roundOrOne
    rw [if_neg (by omega)]
  refine ⟨⌊qh + 1 / 2⌋, ?_, rfl, ?_⟩
  · rw [framesPerTransition_finite _ _ _ hf.ne', ← hqh, hfr]
  · have hdq : totalDurationMs = q * frameIntervalMs * T := by
      rw [hqdef]; field_simp; ring
    have hlo : ((⌊qh + 1 / 2⌋ : ℤ) : ℚ) ≤ qh + 1 / 2 := Int.floor_le _
    have hhi : qh + 1 / 2 < ((⌊qh + 1 / 2⌋ : ℤ) : ℚ) + 1 := Int.lt_floor_add_one _
    have hTf : 0 < T * frameIntervalMs := mul_pos hT hf
    rw [abs_le] at herr ⊢
    have hd' : totalDurationMs * (1 / 2 ^ 51) = T * frameIntervalMs * (q * (1 / 2 ^ 51)) := by
      rw [hdq]; ring
    rw [hd']
    have key1 : T * ((⌊qh + 1 / 2⌋ : ℤ) : ℚ) * frameIntervalMs - totalDurationMs
        = T * frameIntervalMs * (((⌊qh + 1 / 2⌋ : ℤ) : ℚ) - q) := by
      rw [hdq]; ring
    rw [key1]
    constructor
    · have : -(1 / 2 + q * (1 / 2 ^ 51)) ≤ ((⌊qh + 1 / 2⌋ : ℤ) : ℚ) - q := by linarith [herr.1]
      have := mul_le_mul_of_nonneg_left this hTf.le
      linarith
    · have : ((⌊qh + 1 / 2⌋ : ℤ) : ℚ) - q ≤ 1 / 2 + q * (1 / 2 ^ 51) := by linarith [herr.2]
      have := mul_le_mul_of_nonneg_left this hTf.le
      linarith

theorem playback_time_error_witness :
    (1 ≤ 2 ∧ (0 : ℚ) < 500 ∧ (0 : ℚ) < fl (1000 / 7) ∧
      (1 : ℚ) / 2 ≤ scheduleQuotient 500 (fl (1000 / 7)) 2) ∧
    ∃ f : ℤ,
      framesPerTransition (.finite 500) (.finite (fl (1000 / 7))) 2 = .finite (f : ℚ) ∧
      f = ⌊scheduleQuotient 500 (fl (1000 / 7)) 2 + 1 / 2⌋ ∧
      |(transitionAmount 2 : ℚ) * (f : ℚ) * fl (1000 / 7) - 500|
        ≤ (transitionAmount 2 : ℚ) * fl (1000 / 7) / 2 + 500 * (1 / 2 ^ 51) :=
  ⟨⟨by decide, by norm_num, by decide!, by decide!⟩,
    playback_time_error 2 500 (fl (1000 / 7)) (by decide) (by norm_num) (by decide!)
      (by decide!)⟩

theorem fl_one : fl 1 = 1 := by decide!

theorem fl_one_add_ulp : fl (1 + 1 / 2 ^ 53) = 1 := by decide!

theorem fl_one_sub_ulp : fl (1 - 1 / 2 ^ 53) = 1 - 1 / 2 ^ 53 := by decide!

theorem fl_ulp : fl (1 / 2 ^ 53) = 1 / 2 ^ 53 := by decide!

/-- Bounds of `fl (1 / f)` for a positive integer `f`. -/
theorem fl_inv_bounds (f : ℤ) (hf : 1 ≤ f) :
    (1 - 1 / 2 ^ 53) ≤ fl (1 / (f : ℚ)) * (f : ℚ) ∧
    fl (1 / (f : ℚ)) * (f : ℚ) ≤ 1 + 1 / 2 ^ 53 ∧ 0 < fl (1 / (f : ℚ)) := by
  have hfq : (0 : ℚ) < (f : ℚ) := by exact_mod_cast (by omega : (0 : ℤ) < f)
  have hpos : (0 : ℚ) < 1 / (f : ℚ) := by positivity
  have e := fl_rel_error _ hpos
  rw [pow2_neg53, abs_le] at e
  have h1 : 1 / (f : ℚ) * (f : ℚ) = 1 := by field_simp
  refine ⟨?_, ?_, fl_pos _ hpos⟩
  · have := mul_le_mul_of_nonneg_right e.1 hfq.le
    nlinarith
  · have := mul_le_mul_of_nonneg_right e.2 hfq.le
    nlinarith

/-- The opacities of round `k` of the inner loop are doubles in `[0,1]`. -/
theorem opacity_range (f : ℤ) (k : ℕ) (hk0 : 0 < k) (hk : (k : ℤ) ≤ f) :
    0 ≤ fl (fl (1 / (f : ℚ)) * (k : ℚ)) ∧ fl (fl (1 / (f : ℚ)) * (k : ℚ)) ≤ 1 ∧
    0 ≤ fl (1 - fl (fl (1 / (f : ℚ)) * (k : ℚ))) ∧
    fl (1 - fl (fl (1 / (f : ℚ)) * (k : ℚ))) ≤ 1 := by
  have hf : (1 : ℤ) ≤ f := by omega
  obtain ⟨-, hup, hpos⟩ := fl_inv_bounds f hf
  have hkq : (0 : ℚ) < (k : ℚ) := by exact_mod_cast hk0
  have hkf : (k : ℚ) ≤ (f : ℚ) := by exact_mod_cast hk
  have hx0 : 0 ≤ fl (1 / (f : ℚ)) * (k : ℚ) := (mul_pos hpos hkq).le
  have hx1 : fl (1 / (f : ℚ)) * (k : ℚ) ≤ 1 + 1 / 2 ^ 53 :=
    le_trans (mul_le_mul_of_nonneg_left hkf hpos.le) hup
  have hp0 : 0 ≤ fl (fl (1 / (f : ℚ)) * (k : ℚ)) := fl_nonneg _ hx0
  have hp1 : fl (fl (1 / (f : ℚ)) * (k : ℚ)) ≤ 1 := by
    have := fl_mono_nonneg hx0 hx1
    rwa [fl_one_add_ulp] at this
  refine ⟨hp0, hp1, fl_nonneg _ (by linarith), ?_⟩
  have := fl_mono_nonneg (by linarith : (0 : ℚ) ≤ 1 - fl (fl (1 / (f : ℚ)) * (k : ℚ)))
    (by linarith : 1 - fl (fl (1 / (f : ℚ)) * (k : ℚ)) ≤ 1)
  rwa [fl_one] at this

/-- The opacities of the last round: within `2^-53` of 1 and of 0. -/
theorem last_opacity_range (f : ℤ) (hf : 1 ≤ f) :
    1 - 1 / 2 ^ 53 ≤ fl (fl (1 / (f : ℚ)) * (f : ℚ)) ∧ fl (fl (1 / (f : ℚ)) * (f : ℚ)) ≤ 1 ∧
    0 ≤ fl (1 - fl (fl (1 / (f : ℚ)) * (f : ℚ))) ∧
    fl (1 - fl (fl (1 / (f : ℚ)) * (f : ℚ))) ≤ 1 / 2 ^ 53 := by
  obtain ⟨hlo, hup, hpos⟩ := fl_inv_bounds f hf
  have hx0 : (0 : ℚ) ≤ 1 - 1 / 2 ^ 53 := by norm_num
  have hp1 : fl (fl (1 / (f : ℚ)) * (f : ℚ)) ≤ 1 := by
    have := fl_mono_nonneg (le_trans hx0 hlo) hup
    rwa [fl_one_add_ulp] at this
  have hp0 : 1 - 1 / 2 ^ 53 ≤ fl (fl (1 / (f : ℚ)) * (f : ℚ)) := by
    have := fl_mono_nonneg hx0 hlo
    rwa [fl_one_sub_ulp] at this
  refine ⟨hp0, hp1, fl_nonneg _ (by linarith), ?_⟩
  have := fl_mono_nonneg (by linarith : (0 : ℚ) ≤ 1 - fl (fl (1 / (f : ℚ)) * (f : ℚ)))
    (by linarith : 1 - fl (fl (1 / (f : ℚ)) * (f : ℚ)) ≤ 1 / 2 ^ 53)
  rwa [fl_ulp] at this

theorem setGlobalAlpha_of_mem (c : Canvas) (v : ℚ) (h0 : 0 ≤ v) (h1 : v ≤ 1) :
    c.setGlobalAlpha (.finite v) = { c with globalAlpha := v } := by
  simp [Canvas.setGlobalAlpha, h0, h1]

theorem setGlobalAlpha_width (c : Canvas) (v : JSNumber) : (c.setGlobalAlpha v).width = c.width := by
  unfold Canvas.setGlobalAlpha
  cases v with
  | finite q => simp only; split_ifs <;> rfl
  | infinity n => rfl
  | nan => rfl

theorem setGlobalAlpha_height (c : Canvas) (v : JSNumber) :
    (c.setGlobalAlpha v).height = c.height := by
  unfold Canvas.setGlobalAlpha
  cases v with
  | finite q => simp only; split_ifs <;> rfl
  | infinity n => rfl
  | nan => rfl

theorem transitionFrame_canvas_width (bf bt : ImageBitmap) (ch : JSNumber) (W H k : ℕ)
    (c : Canvas) : (transitionFrame bf bt ch W H k c).2.width = c.width := by
  simp [transitionFrame, Canvas.drawImage, setGlobalAlpha_width, Canvas.clearRect]

theorem transitionFrame_canvas_height (bf bt : ImageBitmap) (ch : JSNumber) (W H k : ℕ)
    (c : Canvas) : (transitionFrame bf bt ch W H k c).2.height = c.height := by
  simp [transitionFrame, Canvas.drawImage, setGlobalAlpha_height, Canvas.clearRect]

/-- The frame of one round, spelled out in canvas calls. -/
theorem transitionFrame_calls (bf bt : ImageBitmap) (ch : ℚ) (W H k : ℕ) (c : Canvas) :
    (transitionFrame bf bt (.finite ch) W H k c).1
      = (((((c.clearRect c.width c.height).setGlobalAlpha
              (.finite (fl (1 - fl (ch * (k : ℚ)))))).drawImage bf.width bf.height bf.px).setGlobalAlpha
              (.finite (fl (ch * (k : ℚ))))).drawImage bt.width bt.height bt.px).getImageData W H :=
  rfl

/-- Pixel of the frame of one round. -/
theorem transitionFrame_px (bf bt : ImageBitmap) (ch : ℚ) (W H k : ℕ) (c : Canvas)
    (h0 : 0 ≤ fl (ch * (k : ℚ))) (h1 : fl (ch * (k : ℚ)) ≤ 1)
    (g0 : 0 ≤ fl (1 - fl (ch * (k : ℚ)))) (g1 : fl (1 - fl (ch * (k : ℚ))) ≤ 1) (x y : ℕ)
    (hx : x < W) (hy : y < H) (hcx : x < c.width) (hcy : y < c.height)
    (hfx : x < bf.width) (hfy : y < bf.height) (htx : x < bt.width) (hty : y < bt.height) :
    (transitionFrame bf bt (.finite ch) W H k c).1.px x y
      = unpremultiply (sourceOver (premultiply (bt.px x y) (fl (ch * (k : ℚ))))
          (sourceOver (premultiply (bf.px x y) (fl (1 - fl (ch * (k : ℚ))))) CanvasPixel.clear)) := by
  rw [transitionFrame_calls]
  rw [setGlobalAlpha_of_mem _ _ g0 g1, setGlobalAlpha_of_mem _ _ h0 h1]
  simp [Canvas.getImageData, Canvas.drawImage, Canvas.clearRect, hx, hy, hcx, hcy, hfx, hfy, htx, hty]

theorem transitionFrame_fst_congr (bf bt : ImageBitmap) (ch : ℚ) (W H k : ℕ) (c c0 : Canvas)
    (h0 : 0 ≤ fl (ch * (k : ℚ))) (h1 : fl (ch * (k : ℚ)) ≤ 1)
    (g0 : 0 ≤ fl (1 - fl (ch * (k : ℚ)))) (g1 : fl (1 - fl (ch * (k : ℚ))) ≤ 1)
    (hw : c.width = c0.width) (hh : c.height = c0.height) :
    (transitionFrame bf bt (.finite ch) W H k c).1
      = (transitionFrame bf bt (.finite ch) W H k c0).1 := by
  rw [transitionFrame_calls, transitionFrame_calls]
  rw [setGlobalAlpha_of_mem _ _ g0 g1, setGlobalAlpha_of_mem _ _ h0 h1,
    setGlobalAlpha_of_mem _ _ g0 g1, setGlobalAlpha_of_mem _ _ h0 h1]
  simp only [Canvas.getImageData, Canvas.drawImage, Canvas.clearRect, hw, hh]
  congr 1
  funext x y
  by_cases hb : x < W ∧ y < H ∧ x < c0.width ∧ y < c0.height
  · obtain ⟨hx, hy, hcx, hcy⟩ := hb
    simp [hx, hy, hcx, hcy]
  · simp [hb]

theorem transitionFramesLoop_length (bf bt : ImageBitmap) (ch : JSNumber) (W H : ℕ)
    (remaining ct : ℕ) (c : Canvas) :
    (transitionFramesLoop bf bt ch W H remaining ct c).1.length = remaining := by
  induction remaining generalizing ct c with
  | zero => rfl
  | succ r ih => simp [transitionFramesLoop, ih]

theorem transitionFramesLoop_canvas (bf bt : ImageBitmap) (ch : JSNumber) (W H : ℕ)
    (remaining ct : ℕ) (c : Canvas) :
    (transitionFramesLoop bf bt ch W H remaining ct c).2.width = c.width ∧
    (transitionFramesLoop bf bt ch W H remaining ct c).2.height = c.height := by
  induction remaining generalizing ct c with
  | zero => exact ⟨rfl, rfl⟩
  | succ r ih =>
    simp only [transitionFramesLoop]
    obtain ⟨h1, h2⟩ := ih (ct + 1) (transitionFrame bf bt ch W H (ct + 1) c).2
    rw [h1, h2, transitionFrame_canvas_width, transitionFrame_canvas_height]
    exact ⟨rfl, rfl⟩

theorem transitionFramesLoop_getElem? (bf bt : ImageBitmap) (ch : ℚ) (W H : ℕ)
    (remaining ct : ℕ) (c c0 : Canvas)
    (hw : c.width = c0.width) (hh : c.height = c0.height)
    (hrange : ∀ k : ℕ, ct < k → k ≤ ct + remaining →
      0 ≤ fl (ch * (k : ℚ)) ∧ fl (ch * (k : ℚ)) ≤ 1 ∧
      0 ≤ fl (1 - fl (ch * (k : ℚ))) ∧ fl (1 - fl (ch * (k : ℚ))) ≤ 1)
    (n : ℕ) (hn : n < remaining) :
    (transitionFramesLoop bf bt (.finite ch) W H remaining ct c).1[n]?
      = some (transitionFrame bf bt (.finite ch) W H (ct + n + 1) c0).1 := by
  induction remaining generalizing ct c n with
  | zero => omega
  | succ r ih =>
    simp only [transitionFramesLoop]
    cases n with
    | zero =>
      obtain ⟨h0, h1, g0, g1⟩ := hrange (ct + 1) (by omega) (by omega)
      simp only [List.getElem?_cons_zero, Nat.add_zero]
      rw [transitionFrame_fst_congr bf bt ch W H (ct + 1) c c0 h0 h1 g0 g1 hw hh]
    | succ n =>
      simp only [List.getElem?_cons_succ]
      rw [ih (ct + 1) (transitionFrame bf bt (.finite ch) W H (ct + 1) c).2
        (by rw [transitionFrame_canvas_width]; exact hw)
        (by rw [transitionFrame_canvas_height]; exact hh)
        (fun k hk1 hk2 => hrange k (by omega) (by omega)) n (by omega)]
      congr 3
      omega

theorem couplesLoop_length (iterations : ℕ) (ch : JSNumber) (W H : ℕ) (arr : List ImageData)
    (c : Canvas) : (couplesLoop iterations ch W H arr c).1.length = (arr.length - 1) * iterations := by
  induction arr generalizing c with
  | nil => simp [couplesLoop]
  | cons a rest ih =>
    cases rest with
    | nil => simp [couplesLoop]
    | cons b rest =>
      simp only [couplesLoop, List.length_append, transitionFramesLoop_length, ih, List.length_cons]
      simp only [Nat.add_sub_cancel]
      ring

theorem couplesLoop_getElem? (iterations : ℕ) (ch : ℚ) (W H : ℕ) (arr : List ImageData)
    (c c0 : Canvas) (hw : c.width = c0.width) (hh : c.height = c0.height)
    (hrange : ∀ k : ℕ, 0 < k → k ≤ iterations →
      0 ≤ fl (ch * (k : ℚ)) ∧ fl (ch * (k : ℚ)) ≤ 1 ∧
      0 ≤ fl (1 - fl (ch * (k : ℚ))) ∧ fl (1 - fl (ch * (k : ℚ))) ≤ 1)
    (i n : ℕ) (hn : n < iterations) (imageDataFrom imageDataTo : ImageData)
    (hfrom : arr[i]? = some imageDataFrom) (hto : arr[i + 1]? = some imageDataTo) :
    (couplesLoop iterations (.finite ch) W H arr c).1[i * iterations + n]?
      = some (transitionFrame (createImageBitmap imageDataFrom W H)
          (createImageBitmap imageDataTo W H) (.finite ch) W H (n + 1) c0).1 := by
  induction arr generalizing c i with
  | nil => simp at hfrom
  | cons a rest ih =>
    cases rest with
    | nil => simp at hto
    | cons b rest =>
      simp only [couplesLoop]
      cases i with
      | zero =>
        simp only [List.getElem?_cons_zero, List.getElem?_cons_succ, Option.some.injEq,
          Nat.zero_add] at hfrom hto
        subst hfrom hto
        rw [Nat.zero_mul, Nat.zero_add, List.getElem?_append_left
          (by rw [transitionFramesLoop_length]; exact hn)]
        have := transitionFramesLoop_getElem? (createImageBitmap a W H) (createImageBitmap b W H)
          ch W H iterations 0 c c0 hw hh (fun k hk1 hk2 => hrange k hk1 (by omega)) n hn
        rw [this, Nat.zero_add]
      | succ i =>
        have hfrom1 : (b :: rest)[i]? = some imageDataFrom := by simpa using hfrom
        have hto1 : (b :: rest)[i + 1]? = some imageDataTo := by simpa using hto
        obtain ⟨h3, h4⟩ := transitionFramesLoop_canvas (createImageBitmap a W H)
          (createImageBitmap b W H) (.finite ch) W H iterations 0 c
        rw [List.getElem?_append_right (by rw [transitionFramesLoop_length]; nlinarith)]
        rw [transitionFramesLoop_length]
        have hidx : (i + 1) * iterations + n - iterations = i * iterations + n := by
          rw [Nat.succ_mul]; omega
        rw [hidx]
        exact ih _ (h3.trans hw) (h4.trans hh) i hfrom1 hto1

theorem pushFirstIfSingle_length (imgs : List ImageData) :
    (pushFirstIfSingle imgs).length = pushedLength imgs.length := by
  unfold pushFirstIfSingle pushedLength
  split_ifs with h
  · match imgs, h with
    | [a], _ => rfl
  · rfl

theorem pushFirstIfSingle_of_two_le (imgs : List ImageData) (h : 2 ≤ imgs.length) :
    pushFirstIfSingle imgs = imgs := by
  unfold pushFirstIfSingle
  rw [if_neg (by omega)]

theorem pushFirstIfSingle_head (imgs : List ImageData) :
    (pushFirstIfSingle imgs)[0]? = imgs[0]? := by
  unfold pushFirstIfSingle
  split_ifs with h
  · match imgs, h with
    | [a], _ => rfl
  · rfl

theorem mem_of_mem_pushFirstIfSingle (imgs : List ImageData) (img : ImageData)
    (h : img ∈ pushFirstIfSingle imgs) : img ∈ imgs := by
  unfold pushFirstIfSingle at h
  split_ifs at h with h1
  · match imgs, h1 with
    | [a], _ => simpa using h
  · exact h

theorem loopCount_finite_int (f : ℤ) : loopCount (.finite (f : ℚ)) = some f.toNat := by
  simp [loopCount]

/-- The call, for a first image and a finite integral `framesPerTransition`. -/
theorem createTransition_eq (d fd : JSNumber) (c : Canvas) (imgs : List ImageData)
    (first : ImageData) (f : ℤ) (h : imgs[0]? = some first)
    (hf : framesPerTransition d fd imgs.length = .finite (f : ℚ)) :
    createTransitionImageDatasUsingCanvas d fd c imgs
      = some (⟨first, (couplesLoop f.toNat (changeInTransparency d fd imgs.length)
                first.width first.height (pushFirstIfSingle imgs) c).1⟩,
              (couplesLoop f.toNat (changeInTransparency d fd imgs.length)
                first.width first.height (pushFirstIfSingle imgs) c).2) := by
  unfold createTransitionImageDatasUsingCanvas
  simp only [pushFirstIfSingle_head, h, hf, loopCount_finite_int]

theorem changeInTransparency_finite (d fd : JSNumber) (len : ℕ) (f : ℤ) (hf1 : f ≠ 0)
    (hf : framesPerTransition d fd len = .finite (f : ℚ)) :
    changeInTransparency d fd len = .finite (fl (1 / (f : ℚ))) := by
  unfold changeInTransparency
  rw [hf, jsDiv_finite _ _ (by exact_mod_cast hf1)]

/-- Claim C2: for N >= 1 images and positive duration and frame interval the call
returns, framesPerTransition is a finite integer f, allTransitionFrames has
max(N - 1, 1) * f entries, and the sequence with initialFrame in front has
1 + max(N - 1, 1) * f. -/
theorem frame_sequence_length (d fd : ℚ) (c : Canvas) (imgs : List ImageData)
    (hN : 1 ≤ imgs.length) (hd : 0 < d) (hfd : 0 < fd) :
    ∃ t c1 f, createTransitionImageDatasUsingCanvas (.finite d) (.finite fd) c imgs
        = some (t, c1) ∧
      framesPerTransition (.finite d) (.finite fd) imgs.length = .finite ((f : ℤ) : ℚ) ∧
      ((t.allTransitionFrames.length : ℕ) : ℤ) = max ((imgs.length : ℤ) - 1) 1 * f ∧
      (((t.initialFrame :: t.allTransitionFrames).length : ℕ) : ℤ)
        = 1 + max ((imgs.length : ℤ) - 1) 1 * f := by
  obtain ⟨first, hfirst⟩ : ∃ first, imgs[0]? = some first :=
    ⟨imgs[0], List.getElem?_eq_getElem (by omega)⟩
  have hf := framesPerTransition_finite d fd imgs.length hfd.ne'
  have hf1 := roundOrOne_pos d fd imgs.length hN hd hfd
  set f := roundOrOne (scheduleQuotient d fd imgs.length) with hfdef
  have hlen : ((couplesLoop f.toNat
      (changeInTransparency (.finite d) (.finite fd) imgs.length) first.width first.height
      (pushFirstIfSingle imgs) c).1.length : ℤ)
      = max ((imgs.length : ℤ) - 1) 1 * f := by
    rw [couplesLoop_length, pushFirstIfSingle_length, pushedLength_eq_max _ hN]
    have h2 : 2 ≤ max imgs.length 2 := le_max_right _ _
    push_cast [Nat.cast_sub (by omega : 1 ≤ max imgs.length 2)]
    rw [Int.toNat_of_nonneg (by omega)]
    congr 1
    omega
  refine ⟨_, _, f, createTransition_eq _ _ c imgs first f hfirst hf, hf, hlen, ?_⟩
  rw [List.length_cons]
  push_cast
  rw [hlen]
  ring

theorem frame_sequence_length_witness :
    (1 ≤ [imageA].length ∧ (0 : ℚ) < 100 ∧ (0 : ℚ) < 20) ∧
    ∃ t c1 f, createTransitionImageDatasUsingCanvas (.finite 100) (.finite 20) canvas2x1 [imageA]
        = some (t, c1) ∧
      framesPerTransition (.finite 100) (.finite 20) [imageA].length = .finite ((f : ℤ) : ℚ) ∧
      ((t.allTransitionFrames.length : ℕ) : ℤ) = max (([imageA].length : ℤ) - 1) 1 * f ∧
      (((t.initialFrame :: t.allTransitionFrames).length : ℕ) : ℤ)
        = 1 + max (([imageA].length : ℤ) - 1) 1 * f :=
  ⟨⟨by decide, by norm_num, by norm_num⟩,
    frame_sequence_length 100 20 canvas2x1 [imageA] (by decide) (by norm_num) (by norm_num)⟩

/-- Error of the opacity of round `k` against `k / f`. -/
theorem opacity_error (f : ℤ) (k : ℕ) (hk0 : 0 < k) (hf : 1 ≤ f) :
    |fl (fl (1 / (f : ℚ)) * (k : ℚ)) - (k : ℚ) / (f : ℚ)| ≤ (k : ℚ) / (f : ℚ) * (1 / 2 ^ 51) := by
  have hfq : (0 : ℚ) < (f : ℚ) := by exact_mod_cast (by omega : (0 : ℤ) < f)
  have hkq : (0 : ℚ) < (k : ℚ) := by exact_mod_cast hk0
  have hpos : (0 : ℚ) < 1 / (f : ℚ) := by positivity
  have hch := fl_pos _ hpos
  have e1 := fl_rel_error _ hpos
  have e2 := fl_rel_error _ (mul_pos hch hkq)
  rw [pow2_neg53, abs_le] at e1 e2
  rw [abs_le]
  set ch := fl (1 / (f : ℚ)) with hchdef
  set p := fl (ch * (k : ℚ)) with hp
  have hkf : (k : ℚ) / (f : ℚ) = 1 / (f : ℚ) * (k : ℚ) := by ring
  rw [hkf]
  set r := 1 / (f : ℚ) with hr
  have a1 := mul_le_mul_of_nonneg_right e1.1 hkq.le
  have a2 := mul_le_mul_of_nonneg_right e1.2 hkq.le
  have hrk : 0 < r * (k : ℚ) := mul_pos hpos hkq
  have hck : ch * (k : ℚ) ≤ r * (k : ℚ) * (1 + 1 / 2 ^ 53) := by nlinarith
  have hu : (0 : ℚ) < 1 / 2 ^ 53 := by positivity
  have hs : ch * (k : ℚ) * (1 / 2 ^ 53) ≤ r * (k : ℚ) * (1 + 1 / 2 ^ 53) * (1 / 2 ^ 53) :=
    mul_le_mul_of_nonneg_right hck hu.le
  have hk' : r * (k : ℚ) * (1 + 1 / 2 ^ 53) * (1 / 2 ^ 53) + r * (k : ℚ) * (1 / 2 ^ 53)
      ≤ r * (k : ℚ) * (1 / 2 ^ 51) := by
    have : (1 + 1 / 2 ^ 53) * (1 / 2 ^ 53) + 1 / 2 ^ 53 ≤ (1 : ℚ) / 2 ^ 51 := by norm_num
    nlinarith
  constructor <;> nlinarith [e2.1, e2.2]

/-- Claim C1 fails as stated: at 1000 ms and 49 Hz framesPerTransition is 49 and the
opacity of round k = 49, changeInTransparency * 49, is 1 - 2^-53, not 49 / 49. -/
theorem opacity_is_not_k_over_f :
    framesPerTransition (.finite 1000) (calculateFrameDurationMs (.finite 49))
        [imageA, imageB].length = .finite 49 ∧
    jsMul (changeInTransparency (.finite 1000) (calculateFrameDurationMs (.finite 49))
        [imageA, imageB].length) (.finite ((49 : ℕ) : ℚ)) = .finite (1 - 1 / 2 ^ 53) ∧
    jsMul (changeInTransparency (.finite 1000) (calculateFrameDurationMs (.finite 49))
        [imageA, imageB].length) (.finite ((49 : ℕ) : ℚ))
      ≠ .finite (((49 : ℕ) : ℚ) / ((49 : ℤ) : ℚ)) := by
  decide!

/-- Claim C1, amended: for N >= 2 images and a finite framesPerTransition f >= 1 the
call returns, initialFrame is image 0 itself, and for every couple i (i + 1 < N) and
every k in 1..f the entry of allTransitionFrames at index i * f + (k - 1) is the
blend of images i and i + 1: what getImageData reads after clearRect, drawImage of
image i at globalAlpha opacityFrom and drawImage of image i + 1 at globalAlpha
opacityTo, where opacityTo = changeInTransparency * k is the double
fl(fl(1 / f) * k), in [0,1] and within k / f * 2^-51 of k / f, and
opacityFrom = fl(1 - opacityTo).  The index formula puts the frames of couple i
before those of couple i + 1 and, within a couple, in increasing k. -/
theorem assembler_frame_order (d fd : JSNumber) (c : Canvas) (imgs : List ImageData) (f : ℤ)
    (hN : 2 ≤ imgs.length) (hf : framesPerTransition d fd imgs.length = .finite (f : ℚ))
    (hf1 : 1 ≤ f) (i k : ℕ) (hi : i + 1 < imgs.length) (hk1 : 1 ≤ k) (hk : (k : ℤ) ≤ f) :
    ∃ t c1, createTransitionImageDatasUsingCanvas d fd c imgs = some (t, c1) ∧
      t.initialFrame = imgs[0] ∧
      jsMul (changeInTransparency d fd imgs.length) (.finite (k : ℚ))
        = .finite (fl (fl (1 / (f : ℚ)) * (k : ℚ))) ∧
      jsSub (.finite 1) (jsMul (changeInTransparency d fd imgs.length) (.finite (k : ℚ)))
        = .finite (fl (1 - fl (fl (1 / (f : ℚ)) * (k : ℚ)))) ∧
      t.allTransitionFrames[i * f.toNat + (k - 1)]?
        = some ((((((c.clearRect c.width c.height).setGlobalAlpha
              (.finite (fl (1 - fl (fl (1 / (f : ℚ)) * (k : ℚ)))))).drawImage
                imgs[0].width imgs[0].height
                (createImageBitmap imgs[i] imgs[0].width imgs[0].height).px).setGlobalAlpha
              (.finite (fl (fl (1 / (f : ℚ)) * (k : ℚ))))).drawImage
                imgs[0].width imgs[0].height
                (createImageBitmap imgs[i + 1] imgs[0].width imgs[0].height).px).getImageData
            imgs[0].width imgs[0].height) ∧
      0 ≤ fl (fl (1 / (f : ℚ)) * (k : ℚ)) ∧ fl (fl (1 / (f : ℚ)) * (k : ℚ)) ≤ 1 ∧
      |fl (fl (1 / (f : ℚ)) * (k : ℚ)) - (k : ℚ) / (f : ℚ)|
        ≤ (k : ℚ) / (f : ℚ) * (1 / 2 ^ 51) := by
  have hfirst : imgs[0]? = some imgs[0] := List.getElem?_eq_getElem (by omega)
  have hch := changeInTransparency_finite d fd imgs.length f (by omega) hf
  obtain ⟨h0, h1, -, -⟩ := opacity_range f k (by omega) hk
  refine ⟨_, _, createTransition_eq d fd c imgs imgs[0] f hfirst hf, rfl, ?_, ?_, ?_, h0, h1,
    opacity_error f k (by omega) hf1⟩
  · rw [hch]; rfl
  · rw [hch]; rfl
  · simp only
    rw [pushFirstIfSingle_of_two_le imgs hN, hch]
    have hkn : k - 1 < f.toNat := by omega
    have := couplesLoop_getElem? f.toNat (fl (1 / (f : ℚ))) imgs[0].width imgs[0].height imgs c c
      rfl rfl (fun k hk0 hkf => opacity_range f k hk0 (by omega)) i (k - 1) hkn
      imgs[i] imgs[i + 1] (List.getElem?_eq_getElem (by omega)) (List.getElem?_eq_getElem hi)
    rw [this, Nat.sub_add_cancel hk1, transitionFrame_calls]
    rfl

/-! playback -/

theorem ticks_succ_right (t : TransitionImageDatas) (j : ℕ) (s : Playback) :
    ticks t (j + 1) s = (ticks t j s).bind (tick t) := by
  induction j generalizing s with
  | zero =>
    show (tick t s).bind (ticks t 0) = (some s).bind (tick t)
    cases h : tick t s <;> simp [ticks, h]
  | succ j ih =>
    rw [ticks]
    cases h : tick t s with
    | none => simp [ticks, h]
    | some s1 =>
      simp only [Option.some_bind]
      rw [ih s1]
      conv_rhs => rw [ticks, h]
      simp

theorem ticks_prefix (t : TransitionImageDatas) (j : ℕ) (hj : j ≤ t.allTransitionFrames.length)
    (hn : 1 ≤ t.allTransitionFrames.length) :
    ticks t j (renderTransition t)
      = some ⟨j, decide (j ≠ t.allTransitionFrames.length),
          t.initialFrame :: t.allTransitionFrames.take j,
          t.initialFrame.width, t.initialFrame.height⟩ := by
  induction j with
  | zero =>
    have : (0 : ℕ) ≠ t.allTransitionFrames.length := by omega
    simp [ticks, renderTransition, this]
  | succ j ih =>
    have hlt : j < t.allTransitionFrames.length := by omega
    have hne : j ≠ t.allTransitionFrames.length := by omega
    rw [ticks_succ_right, ih (by omega)]
    simp only [Option.some_bind, tick, requestAnimationFrameInterval, hne, ne_eq, not_false_eq_true,
      decide_True, if_true]
    rw [List.getElem?_eq_getElem hlt, List.take_succ, List.getElem?_eq_getElem hlt]
    simp only [Option.toList, List.cons_append]

theorem ticks_after_end (t : TransitionImageDatas) (m : ℕ) (s : Playback) (hs : s.pending = false) :
    ticks t m s = some s := by
  induction m with
  | zero => rfl
  | succ m ih =>
    have h1 : tick t s = some s := by
      unfold tick
      rw [hs]
      rfl
    rw [ticks, h1]
    exact ih

/-- Claim C8: with n >= 1 transition frames, renderTransition first draws
initialFrame; before tick j (j < n) a callback is pending with frameIndex = j, and
that tick draws allTransitionFrames[j] (so no index >= n is read); after n ticks
the frames drawn are initialFrame followed by allTransitionFrames in order, no
callback is pending, and further ticks change nothing. -/
theorem renderTransition_plays_each_frame_once (t : TransitionImageDatas)
    (hn : 1 ≤ t.allTransitionFrames.length) :
    (renderTransition t).drawn = [t.initialFrame] ∧
    (∀ j, j < t.allTransitionFrames.length →
      ∃ s frame, ticks t j (renderTransition t) = some s ∧ s.pending = true ∧
        s.frameIndex = j ∧ t.allTransitionFrames[j]? = some frame ∧
        ∃ s1, tick t s = some s1 ∧ s1.drawn = s.drawn ++ [frame]) ∧
    (∃ s, ticks t t.allTransitionFrames.length (renderTransition t) = some s ∧
      s.pending = false ∧ s.drawn = t.initialFrame :: t.allTransitionFrames ∧
      ∀ m, ticks t (t.allTransitionFrames.length + m) (renderTransition t) = some s) := by
  refine ⟨rfl, ?_, ?_⟩
  · intro j hj
    have hne : j ≠ t.allTransitionFrames.length := by omega
    refine ⟨_, t.allTransitionFrames[j], ticks_prefix t j hj.le hn, by simp [hne], rfl,
      List.getElem?_eq_getElem hj, ?_⟩
    simp [tick, requestAnimationFrameInterval, hne, List.getElem?_eq_getElem hj]
  · refine ⟨_, ticks_prefix t _ le_rfl hn, by simp, by simp, ?_⟩
    intro m
    induction m with
    | zero => exact ticks_prefix t _ le_rfl hn
    | succ m ih =>
      rw [← Nat.add_assoc, ticks_succ_right, ih]
      simp [tick]

theorem floor_add_half_natCast (n : ℕ) : ⌊(n : ℚ) + 1 / 2⌋ = (n : ℤ) := by
  rw [Int.floor_eq_iff]
  constructor
  · push_cast; linarith
  · push_cast; linarith

theorem toByte_natCast (b : Fin 256) : toByte ((b : ℕ) : ℚ) = b := by
  unfold toByte
  apply Fin.ext
  simp only [floor_add_half_natCast, Int.toNat_ofNat]
  have := b.isLt
  omega

theorem toByte_zero : toByte 0 = 0 := by
  have := toByte_natCast 0
  simpa using this

theorem byte_alpha_eq_zero (p : Pixel) (h : ((p.a : ℕ) : ℚ) = 0) : p.a = 0 := by
  apply Fin.ext
  have : (p.a : ℕ) = 0 := by exact_mod_cast h
  simpa using this

/-- Drawing a pixel at `globalAlpha = 1` on a cleared canvas and reading it back. -/
theorem canvas_roundtrip (p : Pixel) :
    unpremultiply (sourceOver (premultiply p 1) CanvasPixel.clear)
      = if p.a = 0 then Pixel.transparent else p := by
  unfold unpremultiply sourceOver premultiply CanvasPixel.clear
  simp only [zero_mul, add_zero, mul_one]
  have h255 : (255 : ℚ) * (((p.a : ℕ) : ℚ) / 255) = ((p.a : ℕ) : ℚ) := by
    field_simp
  rw [h255, toByte_natCast]
  by_cases ha : p.a = 0
  · rw [if_pos ha, if_pos ha]
  · have hq : ((p.a : ℕ) : ℚ) ≠ 0 := fun h => ha (byte_alpha_eq_zero p h)
    rw [if_neg ha, if_neg ha]
    have hr : ∀ t : ℚ, 255 * (t / 255 * (((p.a : ℕ) : ℚ) / 255) / (((p.a : ℕ) : ℚ) / 255)) = t := by
      intro t
      field_simp
      ring
    simp only [hr, toByte_natCast]

theorem unpremultiply_clear : unpremultiply CanvasPixel.clear = Pixel.transparent := by
  simp [unpremultiply, CanvasPixel.clear, toByte_zero]

theorem biggestDimensions_foldl (objs : List ImageObject) (acc : ℕ × ℕ) :
    objs.foldl
      (fun acc img =>
        (if img.naturalWidth > acc.1 then img.naturalWidth else acc.1,
         if img.naturalHeight > acc.2 then img.naturalHeight else acc.2)) acc
    = ((objs.map (fun o => o.naturalWidth)).foldl max acc.1,
       (objs.map (fun o => o.naturalHeight)).foldl max acc.2) := by
  induction objs generalizing acc with
  | nil => rfl
  | cons o rest ih =>
    simp only [List.foldl_cons, List.map_cons]
    rw [ih]
    have h1 : (if o.naturalWidth > acc.1 then o.naturalWidth else acc.1) = max acc.1 o.naturalWidth := by
      split_ifs <;> omega
    have h2 : (if o.naturalHeight > acc.2 then o.naturalHeight else acc.2)
        = max acc.2 o.naturalHeight := by
      split_ifs <;> omega
    simp only [h1, h2]

theorem foldl_max_ge_init (l : List ℕ) (a : ℕ) : a ≤ l.foldl max a := by
  induction l generalizing a with
  | nil => exact le_rfl
  | cons x rest ih =>
    simp only [List.foldl_cons]
    exact le_trans (le_max_left a x) (ih _)

theorem foldl_max_ge_mem (l : List ℕ) (a x : ℕ) (hx : x ∈ l) : x ≤ l.foldl max a := by
  induction l generalizing a with
  | nil => simp at hx
  | cons y rest ih =>
    simp only [List.foldl_cons]
    rcases List.mem_cons.mp hx with h | h
    · subst h
      exact le_trans (le_max_right a x) (foldl_max_ge_init _ _)
    · exact ih _ h

theorem foldl_max_attained (l : List ℕ) (a : ℕ) : l.foldl max a = a ∨ l.foldl max a ∈ l := by
  induction l generalizing a with
  | nil => exact Or.inl rfl
  | cons y rest ih =>
    simp only [List.foldl_cons]
    rcases ih (max a y) with h | h
    · rcases le_total a y with hay | hay
      · right
        rw [h, max_eq_right hay]
        exact List.mem_cons_self _ _
      · left
        rw [h, max_eq_left hay]
    · right
      exact List.mem_cons_of_mem _ h

theorem imageDatasLoop_length (W H : ℕ) (objs : List ImageObject) (c : Canvas) :
    (imageDatasLoop W H objs c).1.length = objs.length := by
  induction objs generalizing c with
  | nil => rfl
  | cons o rest ih => simp [imageDatasLoop, ih]

theorem imageDatasLoop_canvas (W H : ℕ) (objs : List ImageObject) (c : Canvas) :
    (imageDatasLoop W H objs c).2.width = c.width ∧
    (imageDatasLoop W H objs c).2.height = c.height := by
  induction objs generalizing c with
  | nil => exact ⟨rfl, rfl⟩
  | cons o rest ih =>
    simp only [imageDatasLoop]
    obtain ⟨h1, h2⟩ := ih ((c.clearRect c.width c.height).drawImage o.naturalWidth
      o.naturalHeight o.px)
    exact ⟨h1, h2⟩

theorem imageDatasLoop_getElem? (W H : ℕ) (objs : List ImageObject) (c : Canvas)
    (hw : c.width = W) (hh : c.height = H) (ha : c.globalAlpha = 1)
    (i : ℕ) (obj : ImageObject) (hobj : objs[i]? = some obj) :
    ∃ img, (imageDatasLoop W H objs c).1[i]? = some img ∧ img.width = W ∧ img.height = H ∧
      ∀ x y, img.px x y
        = if x < W ∧ y < H ∧ x < obj.naturalWidth ∧ y < obj.naturalHeight
              ∧ (obj.px x y).a ≠ 0
          then obj.px x y else Pixel.transparent := by
  induction objs generalizing c i with
  | nil => simp at hobj
  | cons o rest ih =>
    simp only [imageDatasLoop]
    cases i with
    | zero =>
      simp only [List.getElem?_cons_zero, Option.some.injEq] at hobj
      subst hobj
      refine ⟨_, List.getElem?_cons_zero, rfl, rfl, ?_⟩
      intro x y
      simp only [Canvas.getImageData, Canvas.drawImage, Canvas.clearRect, hw, hh, ha]
      by_cases hx : x < W
      · by_cases hy : y < H
        · by_cases hfx : x < o.naturalWidth
          · by_cases hfy : y < o.naturalHeight
            · by_cases h0 : (o.px x y).a = 0
              · simp [hx, hy, hfx, hfy, h0, canvas_roundtrip]
              · simp [hx, hy, hfx, hfy, h0, canvas_roundtrip]
            · simp [hx, hy, hfx, hfy, unpremultiply_clear]
          · simp [hx, hy, hfx, unpremultiply_clear]
        · simp [hx, hy]
      · simp [hx]
    | succ i =>
      simp only [List.getElem?_cons_succ] at hobj ⊢
      exact ih ((c.clearRect c.width c.height).drawImage o.naturalWidth o.naturalHeight o.px)
        hw hh ha i hobj

theorem convert_eq (c : Canvas) (objs : List ImageObject) :
    convertImageObjectsIntoImageDatas c objs
      = imageDatasLoop (biggestDimensions objs).1 (biggestDimensions objs).2 objs
          (c.setSize (biggestDimensions objs).1 (biggestDimensions objs).2) := rfl

theorem biggestDimensions_eq (objs : List ImageObject) :
    biggestDimensions objs
      = ((objs.map (fun o => o.naturalWidth)).foldl max 1,
         (objs.map (fun o => o.naturalHeight)).foldl max 1) :=
  biggestDimensions_foldl objs (1, 1)

theorem convert_getElem? (c : Canvas) (objs : List ImageObject) (i : ℕ) (obj : ImageObject)
    (hobj : objs[i]? = some obj) :
    ∃ img, (convertImageObjectsIntoImageDatas c objs).1[i]? = some img ∧
      img.width = (biggestDimensions objs).1 ∧ img.height = (biggestDimensions objs).2 ∧
      ∀ x y, img.px x y
        = if x < (biggestDimensions objs).1 ∧ y < (biggestDimensions objs).2
              ∧ x < obj.naturalWidth ∧ y < obj.naturalHeight ∧ (obj.px x y).a ≠ 0
          then obj.px x y else Pixel.transparent := by
  rw [convert_eq]
  exact imageDatasLoop_getElem? _ _ objs
    (c.setSize (biggestDimensions objs).1 (biggestDimensions objs).2) rfl rfl rfl i obj hobj

theorem convert_mem (c : Canvas) (objs : List ImageObject) (img : ImageData)
    (himg : img ∈ (convertImageObjectsIntoImageDatas c objs).1) :
    ∃ (i : ℕ) (obj : ImageObject), objs[i]? = some obj ∧
      (convertImageObjectsIntoImageDatas c objs).1[i]? = some img := by
  obtain ⟨n, hn⟩ := List.getElem?_of_mem himg
  have hlt : n < objs.length := by
    have h1 : n < (convertImageObjectsIntoImageDatas c objs).1.length := by
      by_contra hcon
      rw [List.getElem?_eq_none (by omega)] at hn
      exact absurd hn (by simp)
    rw [convert_eq, imageDatasLoop_length] at h1
    exact h1
  exact ⟨n, objs[n], List.getElem?_eq_getElem hlt, hn⟩

/-- Claim C6: convertImageObjectsIntoImageDatas returns one buffer per input, the
i-th one holding the i-th image (its visible pixels unchanged), every buffer of size
biggestW x biggestH; biggestW bounds every naturalWidth and is the naturalWidth of
some input as soon as one input is at least 1 wide (likewise for the height), so it
is the maximum over the inputs; both are at least 1, and for the empty list the size
is 1 x 1 and the result is the empty list. -/
theorem normalizer_output (c : Canvas) (imageObjects : List ImageObject) :
    (convertImageObjectsIntoImageDatas c imageObjects).1.length = imageObjects.length ∧
    (∀ (i : ℕ) (obj : ImageObject), imageObjects[i]? = some obj →
      ∃ img, (convertImageObjectsIntoImageDatas c imageObjects).1[i]? = some img ∧
        ∀ x y, x < obj.naturalWidth → y < obj.naturalHeight → (obj.px x y).a ≠ 0 →
          img.px x y = obj.px x y) ∧
    (∀ img ∈ (convertImageObjectsIntoImageDatas c imageObjects).1,
      img.width = (biggestDimensions imageObjects).1 ∧
      img.height = (biggestDimensions imageObjects).2) ∧
    (∀ obj ∈ imageObjects, obj.naturalWidth ≤ (biggestDimensions imageObjects).1 ∧
      obj.naturalHeight ≤ (biggestDimensions imageObjects).2) ∧
    ((∃ obj ∈ imageObjects, 1 ≤ obj.naturalWidth) →
      ∃ obj ∈ imageObjects, obj.naturalWidth = (biggestDimensions imageObjects).1) ∧
    ((∃ obj ∈ imageObjects, 1 ≤ obj.naturalHeight) →
      ∃ obj ∈ imageObjects, obj.naturalHeight = (biggestDimensions imageObjects).2) ∧
    (1 ≤ (biggestDimensions imageObjects).1 ∧ 1 ≤ (biggestDimensions imageObjects).2) ∧
    (biggestDimensions [] = (1, 1) ∧ (convertImageObjectsIntoImageDatas c []).1 = []) := by
  have hbound : ∀ obj ∈ imageObjects, obj.naturalWidth ≤ (biggestDimensions imageObjects).1 ∧
      obj.naturalHeight ≤ (biggestDimensions imageObjects).2 := by
    intro obj hobj
    rw [biggestDimensions_eq]
    exact ⟨foldl_max_ge_mem _ 1 _ (List.mem_map_of_mem (fun o => o.naturalWidth) hobj),
      foldl_max_ge_mem _ 1 _ (List.mem_map_of_mem (fun o => o.naturalHeight) hobj)⟩
  refine ⟨by rw [convert_eq, imageDatasLoop_length], ?_, ?_, hbound, ?_, ?_, ?_, rfl, rfl⟩
  · intro i obj hobj
    obtain ⟨img, himg, -, -, hpx⟩ := convert_getElem? c imageObjects i obj hobj
    refine ⟨img, himg, ?_⟩
    intro x y hx hy h0
    obtain ⟨hbw, hbh⟩ := hbound obj (List.getElem?_mem hobj)
    rw [hpx x y, if_pos ⟨by omega, by omega, hx, hy, h0⟩]
  · intro img himg
    obtain ⟨i, obj, hobj, hi⟩ := convert_mem c imageObjects img himg
    obtain ⟨img1, himg1, hw, hh, -⟩ := convert_getElem? c imageObjects i obj hobj
    rw [hi] at himg1
    simp only [Option.some.injEq] at himg1
    subst himg1
    exact ⟨hw, hh⟩
  · rintro ⟨obj, hobj, h1⟩
    rw [biggestDimensions_eq]
    rcases foldl_max_attained (imageObjects.map (fun o => o.naturalWidth)) 1 with h | h
    · refine ⟨obj, hobj, ?_⟩
      have := (hbound obj hobj).1
      rw [biggestDimensions_eq] at this
      simp only at this ⊢
      omega
    · obtain ⟨o, ho, hoe⟩ := List.mem_map.mp h
      exact ⟨o, ho, hoe⟩
  · rintro ⟨obj, hobj, h1⟩
    rw [biggestDimensions_eq]
    rcases foldl_max_attained (imageObjects.map (fun o => o.naturalHeight)) 1 with h | h
    · refine ⟨obj, hobj, ?_⟩
      have := (hbound obj hobj).2
      rw [biggestDimensions_eq] at this
      simp only at this ⊢
      omega
    · obtain ⟨o, ho, hoe⟩ := List.mem_map.mp h
      exact ⟨o, ho, hoe⟩
  · rw [biggestDimensions_eq]
    exact ⟨foldl_max_ge_init _ 1, foldl_max_ge_init _ 1⟩

/-- The output of the normaliser is normalised for the canvas it leaves. -/
theorem convert_normalized (c : Canvas) (objs : List ImageObject) :
    Normalized (convertImageObjectsIntoImageDatas c objs).2
      (convertImageObjectsIntoImageDatas c objs).1 := by
  intro img himg
  obtain ⟨i, obj, hobj, hi⟩ := convert_mem c objs img himg
  obtain ⟨img1, himg1, hw, hh, hpx⟩ := convert_getElem? c objs i obj hobj
  rw [hi] at himg1
  simp only [Option.some.injEq] at himg1
  subst himg1
  obtain ⟨hcw, hch⟩ := imageDatasLoop_canvas (biggestDimensions objs).1 (biggestDimensions objs).2
    objs (c.setSize (biggestDimensions objs).1 (biggestDimensions objs).2)
  rw [convert_eq]
  refine ⟨hw.trans hcw.symm, hh.trans hch.symm, ?_⟩
  intro x y h0
  rw [hpx x y] at h0 ⊢
  split_ifs with hcond
  · rw [if_pos hcond] at h0
    exact absurd h0 hcond.2.2.2.2
  · rfl

theorem byte_cast_le_one (b : Fin 256) : ((b : ℕ) : ℚ) / 255 ≤ 1 := by
  have h : (b : ℕ) ≤ 255 := by have := b.isLt; omega
  have h2 : ((b : ℕ) : ℚ) ≤ 255 := by exact_mod_cast h
  rw [div_le_one (by norm_num)]
  exact h2

theorem byte_cast_bounds (b : Fin 256) : (0 : ℚ) ≤ ((b : ℕ) : ℚ) ∧ ((b : ℕ) : ℚ) ≤ 255 := by
  have h : (b : ℕ) ≤ 255 := by have := b.isLt; omega
  exact ⟨by positivity, by exact_mod_cast h⟩

/-- A value within 1/2 of a byte rounds to that byte. -/
theorem toByte_of_close (b : Fin 256) (x : ℚ) (h1 : ((b : ℕ) : ℚ) - 1 / 2 ≤ x)
    (h2 : x < ((b : ℕ) : ℚ) + 1 / 2) : toByte x = b := by
  have hfl : ⌊x + 1 / 2⌋ = ((b : ℕ) : ℤ) := by
    rw [Int.floor_eq_iff]
    constructor
    · push_cast; linarith
    · push_cast; linarith
  unfold toByte
  apply Fin.ext
  simp only [hfl, Int.toNat_ofNat]
  have := b.isLt
  omega

/-- One colour channel of the last frame: the `to` value, the `from` layer being
too faint to move it. -/
theorem channel_of_last_frame (rt rf : Fin 256) (aTo aFrom : ℚ)
    (hTo : (1 - 1 / 2 ^ 53) / 255 ≤ aTo) (hTo1 : aTo ≤ 1)
    (hF0 : 0 ≤ aFrom) (hF1 : aFrom ≤ 1 / 2 ^ 53) :
    toByte (255 * ((((rt : ℕ) : ℚ) / 255 * aTo + ((rf : ℕ) : ℚ) / 255 * aFrom * (1 - aTo))
      / (aTo + aFrom * (1 - aTo)))) = rt := by
  obtain ⟨ht0, ht1⟩ := byte_cast_bounds rt
  obtain ⟨hf0, hf1⟩ := byte_cast_bounds rf
  have hlow : (0 : ℚ) < (1 - 1 / 2 ^ 53) / 255 := by norm_num
  have hTopos : 0 < aTo := lt_of_lt_of_le hlow hTo
  have h1a : 0 ≤ 1 - aTo := by linarith
  have hprod0 : 0 ≤ aFrom * (1 - aTo) := mul_nonneg hF0 h1a
  have hprod1 : aFrom * (1 - aTo) ≤ 1 / 2 ^ 53 := by
    have : aFrom * (1 - aTo) ≤ aFrom * 1 := mul_le_mul_of_nonneg_left (by linarith) hF0
    linarith
  have hA : 0 < aTo + aFrom * (1 - aTo) := by linarith
  set A := aTo + aFrom * (1 - aTo) with hAdef
  set D := aFrom * (1 - aTo) with hD
  have hnum : 255 * ((((rt : ℕ) : ℚ) / 255 * aTo + ((rf : ℕ) : ℚ) / 255 * D) / A)
      = (((rt : ℕ) : ℚ) * A + (((rf : ℕ) : ℚ) - ((rt : ℕ) : ℚ)) * D) / A := by
    rw [hAdef]
    field_simp
    ring
  have hnum' : 255 * ((((rt : ℕ) : ℚ) / 255 * aTo + ((rf : ℕ) : ℚ) / 255 * aFrom * (1 - aTo)) / A)
      = (((rt : ℕ) : ℚ) * A + (((rf : ℕ) : ℚ) - ((rt : ℕ) : ℚ)) * D) / A := by
    rw [← hnum, hD]
    ring
  rw [hnum']
  have hAlow : (1 - 1 / 2 ^ 53) / 255 ≤ A := by linarith
  have hdev1 : (((rf : ℕ) : ℚ) - ((rt : ℕ) : ℚ)) * D ≤ 255 * (1 / 2 ^ 53) := by
    have h3 : (((rf : ℕ) : ℚ) - ((rt : ℕ) : ℚ)) * D ≤ 255 * D :=
      mul_le_mul_of_nonneg_right (by linarith) hprod0
    linarith
  have hdev2 : -(255 * (1 / 2 ^ 53)) ≤ (((rf : ℕ) : ℚ) - ((rt : ℕ) : ℚ)) * D := by
    have h3 : -255 * D ≤ (((rf : ℕ) : ℚ) - ((rt : ℕ) : ℚ)) * D :=
      mul_le_mul_of_nonneg_right (by linarith) hprod0
    linarith
  have hsmall : (255 : ℚ) * (1 / 2 ^ 53) < (1 - 1 / 2 ^ 53) / 255 * (1 / 2) := by norm_num
  apply toByte_of_close
  · rw [le_div_iff₀ hA]
    nlinarith
  · rw [div_lt_iff₀ hA]
    nlinarith

/-- The alpha channel of the last frame. -/
theorem alpha_of_last_frame (at255 af255 : Fin 256) (gTo gFrom : ℚ)
    (hTo : 1 - 1 / 2 ^ 53 ≤ gTo) (hTo1 : gTo ≤ 1) (hF0 : 0 ≤ gFrom) (hF1 : gFrom ≤ 1 / 2 ^ 53) :
    toByte (255 * (((at255 : ℕ) : ℚ) / 255 * gTo
      + ((af255 : ℕ) : ℚ) / 255 * gFrom * (1 - ((at255 : ℕ) : ℚ) / 255 * gTo))) = at255 := by
  obtain ⟨ht0, ht1⟩ := byte_cast_bounds at255
  obtain ⟨hf0, hf1⟩ := byte_cast_bounds af255
  have hat0 : 0 ≤ ((at255 : ℕ) : ℚ) / 255 * gTo := by
    apply mul_nonneg (by positivity); linarith [show (0 : ℚ) ≤ 1 - 1 / 2 ^ 53 by norm_num]
  have hat1 : ((at255 : ℕ) : ℚ) / 255 * gTo ≤ 1 := by
    have := byte_cast_le_one at255
    have h0 : (0 : ℚ) ≤ ((at255 : ℕ) : ℚ) / 255 := by positivity
    nlinarith
  have haf0 : 0 ≤ ((af255 : ℕ) : ℚ) / 255 * gFrom := mul_nonneg (by positivity) hF0
  have haf1 : ((af255 : ℕ) : ℚ) / 255 * gFrom ≤ 1 / 2 ^ 53 := by
    have := byte_cast_le_one af255
    have h0 : (0 : ℚ) ≤ ((af255 : ℕ) : ℚ) / 255 := by positivity
    nlinarith
  set aF := ((af255 : ℕ) : ℚ) / 255 * gFrom with haF
  have hD0 : 0 ≤ aF * (1 - ((at255 : ℕ) : ℚ) / 255 * gTo) := mul_nonneg haf0 (by linarith)
  have hD1 : aF * (1 - ((at255 : ℕ) : ℚ) / 255 * gTo) ≤ 1 / 2 ^ 53 := by
    have : aF * (1 - ((at255 : ℕ) : ℚ) / 255 * gTo) ≤ aF * 1 :=
      mul_le_mul_of_nonneg_left (by linarith) haf0
    linarith
  have hexp : 255 * (((at255 : ℕ) : ℚ) / 255 * gTo
      + aF * (1 - ((at255 : ℕ) : ℚ) / 255 * gTo))
      = ((at255 : ℕ) : ℚ) * gTo + 255 * (aF * (1 - ((at255 : ℕ) : ℚ) / 255 * gTo)) := by
    ring
  rw [hexp]
  have hlo : ((at255 : ℕ) : ℚ) * (1 - 1 / 2 ^ 53) ≤ ((at255 : ℕ) : ℚ) * gTo :=
    mul_le_mul_of_nonneg_left hTo ht0
  have hhi : ((at255 : ℕ) : ℚ) * gTo ≤ ((at255 : ℕ) : ℚ) * 1 :=
    mul_le_mul_of_nonneg_left hTo1 ht0
  apply toByte_of_close
  · have : ((at255 : ℕ) : ℚ) * (1 / 2 ^ 53) ≤ 255 * (1 / 2 ^ 53) :=
      mul_le_mul_of_nonneg_right ht1 (by positivity)
    have h5 : (255 : ℚ) * (1 / 2 ^ 53) ≤ 1 / 2 := by norm_num
    nlinarith
  · have h5 : (255 : ℚ) * (1 / 2 ^ 53) < 1 / 2 := by norm_num
    nlinarith

/-- Reading back `to` drawn at an opacity within `2^-53` of 1 over `from` drawn at an
opacity of at most `2^-53` gives the `to` pixel. -/
theorem last_frame_pixel (pxFrom pxTo : Pixel) (gFrom gTo : ℚ)
    (hTo : 1 - 1 / 2 ^ 53 ≤ gTo) (hTo1 : gTo ≤ 1) (hF0 : 0 ≤ gFrom) (hF1 : gFrom ≤ 1 / 2 ^ 53)
    (hT : pxTo.a = 0 → pxTo = Pixel.transparent) :
    unpremultiply (sourceOver (premultiply pxTo gTo)
      (sourceOver (premultiply pxFrom gFrom) CanvasPixel.clear)) = pxTo := by
  unfold unpremultiply sourceOver premultiply CanvasPixel.clear
  simp only [zero_mul, add_zero]
  rw [alpha_of_last_frame pxTo.a pxFrom.a gTo gFrom hTo hTo1 hF0 hF1]
  by_cases ha : pxTo.a = 0
  · rw [if_pos ha]
    exact (hT ha).symm
  · rw [if_neg ha]
    have hpos : (1 : ℚ) ≤ ((pxTo.a : ℕ) : ℚ) := by
      have h1 : (pxTo.a : ℕ) ≠ 0 := fun h => ha (Fin.ext (by simpa using h))
      have h2 : 1 ≤ (pxTo.a : ℕ) := by omega
      exact_mod_cast h2
    have hu : (0 : ℚ) ≤ 1 - 1 / 2 ^ 53 := by norm_num
    have haTo : (1 - 1 / 2 ^ 53) / 255 ≤ ((pxTo.a : ℕ) : ℚ) / 255 * gTo := by
      have h3 : (1 : ℚ) / 255 ≤ ((pxTo.a : ℕ) : ℚ) / 255 :=
        div_le_div_of_nonneg_right hpos (by norm_num)
      have h4 : (1 : ℚ) / 255 * (1 - 1 / 2 ^ 53) ≤ ((pxTo.a : ℕ) : ℚ) / 255 * gTo :=
        mul_le_mul h3 hTo hu (by positivity)
      linarith
    have haTo1 : ((pxTo.a : ℕ) : ℚ) / 255 * gTo ≤ 1 := by
      have := byte_cast_le_one pxTo.a
      have h0 : (0 : ℚ) ≤ ((pxTo.a : ℕ) : ℚ) / 255 := by positivity
      nlinarith
    have haF0 : 0 ≤ ((pxFrom.a : ℕ) : ℚ) / 255 * gFrom := mul_nonneg (by positivity) hF0
    have haF1 : ((pxFrom.a : ℕ) : ℚ) / 255 * gFrom ≤ 1 / 2 ^ 53 := by
      have := byte_cast_le_one pxFrom.a
      have h0 : (0 : ℚ) ≤ ((pxFrom.a : ℕ) : ℚ) / 255 := by positivity
      nlinarith
    rw [channel_of_last_frame pxTo.r pxFrom.r _ _ haTo haTo1 haF0 haF1,
      channel_of_last_frame pxTo.g pxFrom.g _ _ haTo haTo1 haF0 haF1,
      channel_of_last_frame pxTo.b pxFrom.b _ _ haTo haTo1 haF0 haF1]

/-- The frame of couple `i` at round `k`, pixel by pixel, for a normalised input. -/
theorem frame_of_couple (d fd : JSNumber) (c : Canvas) (imgs : List ImageData) (f : ℤ)
    (hnorm : Normalized c imgs) (hf : framesPerTransition d fd imgs.length = .finite (f : ℚ))
    (i k : ℕ) (hk1 : 1 ≤ k) (hk : (k : ℤ) ≤ f)
    (imageDataFrom imageDataTo : ImageData)
    (hfrom : (pushFirstIfSingle imgs)[i]? = some imageDataFrom)
    (hto : (pushFirstIfSingle imgs)[i + 1]? = some imageDataTo) :
    ∃ t c1 frame, createTransitionImageDatasUsingCanvas d fd c imgs = some (t, c1) ∧
      t.allTransitionFrames[i * f.toNat + (k - 1)]? = some frame ∧
      frame.width = c.width ∧ frame.height = c.height ∧
      ∀ x y, x < c.width → y < c.height →
        frame.px x y
          = unpremultiply (sourceOver
              (premultiply (imageDataTo.px x y) (fl (fl (1 / (f : ℚ)) * (k : ℚ))))
              (sourceOver
                (premultiply (imageDataFrom.px x y) (fl (1 - fl (fl (1 / (f : ℚ)) * (k : ℚ)))))
                CanvasPixel.clear)) := by
  have hmemF : imageDataFrom ∈ imgs :=
    mem_of_mem_pushFirstIfSingle _ _ (List.getElem?_mem hfrom)
  have hmemT : imageDataTo ∈ imgs :=
    mem_of_mem_pushFirstIfSingle _ _ (List.getElem?_mem hto)
  have hne : 0 < imgs.length := List.length_pos_of_mem hmemF
  have hfirst : imgs[0]? = some imgs[0] := List.getElem?_eq_getElem hne
  have hmem0 : imgs[0] ∈ imgs := List.getElem_mem hne
  obtain ⟨hw0, hh0, -⟩ := hnorm _ hmem0
  obtain ⟨hwF, hhF, -⟩ := hnorm _ hmemF
  obtain ⟨hwT, hhT, -⟩ := hnorm _ hmemT
  have hch := changeInTransparency_finite d fd imgs.length f (by omega) hf
  have hkn : k - 1 < f.toNat := by omega
  have hidx := couplesLoop_getElem? f.toNat (fl (1 / (f : ℚ))) imgs[0].width imgs[0].height
      (pushFirstIfSingle imgs) c c rfl rfl
      (fun k hk0 hkf => opacity_range f k hk0 (by omega)) i (k - 1) hkn imageDataFrom imageDataTo
      hfrom hto
  rw [Nat.sub_add_cancel hk1] at hidx
  refine ⟨_, _, (transitionFrame (createImageBitmap imageDataFrom imgs[0].width imgs[0].height)
      (createImageBitmap imageDataTo imgs[0].width imgs[0].height) (.finite (fl (1 / (f : ℚ))))
      imgs[0].width imgs[0].height k c).1,
    createTransition_eq d fd c imgs imgs[0] f hfirst hf, ?_, ?_, ?_, ?_⟩
  · simp only
    rw [hch]
    exact hidx
  · rw [← hw0]; rfl
  · rw [← hh0]; rfl
  · intro x y hx hy
    obtain ⟨h0, h1, g0, g1⟩ := opacity_range f k (by omega) hk
    rw [transitionFrame_px _ _ (fl (1 / (f : ℚ))) _ _ k c h0 h1 g0 g1 x y
      (by omega) (by omega) hx hy (by show x < imgs[0].width; omega)
      (by show y < imgs[0].height; omega) (by show x < imgs[0].width; omega)
      (by show y < imgs[0].height; omega)]
    simp only [createImageBitmap]
    rw [if_pos ⟨by omega, by omega⟩, if_pos ⟨by omega, by omega⟩]

/-- Claim C4 fails as stated: at 1000 ms and 49 Hz framesPerTransition is 49, the
opacity of the last round, changeInTransparency * 49, is 1 - 2^-53 and not 1, and
the opacity of the from image is 2^-53 and not 0. -/
theorem last_opacity_is_not_one :
    framesPerTransition (.finite 1000) (calculateFrameDurationMs (.finite 49))
        [imageA, imageB].length = .finite 49 ∧
    jsMul (changeInTransparency (.finite 1000) (calculateFrameDurationMs (.finite 49))
        [imageA, imageB].length) (.finite 49) = .finite (1 - 1 / 2 ^ 53) ∧
    jsMul (changeInTransparency (.finite 1000) (calculateFrameDurationMs (.finite 49))
        [imageA, imageB].length) (.finite 49) ≠ .finite 1 ∧
    jsSub (.finite 1) (jsMul (changeInTransparency (.finite 1000)
        (calculateFrameDurationMs (.finite 49)) [imageA, imageB].length) (.finite 49))
      = .finite (1 / 2 ^ 53) ∧
    jsSub (.finite 1) (jsMul (changeInTransparency (.finite 1000)
        (calculateFrameDurationMs (.finite 49)) [imageA, imageB].length) (.finite 49))
      ≠ .finite 0 := by
  decide!

/-- Claim C4, amended: for a normalised image list and a finite f = framesPerTransition
>= 1, the last frame of every couple (i, i + 1) is made at
opacityTo = changeInTransparency * f, a double in [1 - 2^-53, 1], and
opacityFrom = 1 - opacityTo in [0, 2^-53]; it has the size of image i + 1 and equals
it pixel for pixel. -/
theorem last_frame_is_to_image (d fd : JSNumber) (c : Canvas) (imgs : List ImageData) (f : ℤ)
    (hnorm : Normalized c imgs) (hf : framesPerTransition d fd imgs.length = .finite (f : ℚ))
    (hf1 : 1 ≤ f) (i : ℕ) (imageDataFrom imageDataTo : ImageData)
    (hfrom : (pushFirstIfSingle imgs)[i]? = some imageDataFrom)
    (hto : (pushFirstIfSingle imgs)[i + 1]? = some imageDataTo) :
    ∃ opacityTo opacityFrom : ℚ,
      jsMul (changeInTransparency d fd imgs.length) (.finite (f : ℚ)) = .finite opacityTo ∧
      jsSub (.finite 1) (jsMul (changeInTransparency d fd imgs.length) (.finite (f : ℚ)))
        = .finite opacityFrom ∧
      1 - 1 / 2 ^ 53 ≤ opacityTo ∧ opacityTo ≤ 1 ∧
      0 ≤ opacityFrom ∧ opacityFrom ≤ 1 / 2 ^ 53 ∧
      ∃ t c1 frame, createTransitionImageDatasUsingCanvas d fd c imgs = some (t, c1) ∧
        t.allTransitionFrames[i * f.toNat + (f.toNat - 1)]? = some frame ∧
        frame.width = imageDataTo.width ∧ frame.height = imageDataTo.height ∧
        ∀ x y, x < imageDataTo.width → y < imageDataTo.height →
          frame.px x y = imageDataTo.px x y := by
  have hch := changeInTransparency_finite d fd imgs.length f (by omega) hf
  have hcast : ((f.toNat : ℕ) : ℚ) = (f : ℚ) := by
    have : ((f.toNat : ℕ) : ℤ) = f := Int.toNat_of_nonneg (by omega)
    exact_mod_cast this
  obtain ⟨p1, p2, q1, q2⟩ := last_opacity_range f hf1
  have hmemT : imageDataTo ∈ imgs :=
    mem_of_mem_pushFirstIfSingle _ _ (List.getElem?_mem hto)
  obtain ⟨hwT, hhT, htransp⟩ := hnorm _ hmemT
  obtain ⟨t, c1, frame, hrun, hidx, hw, hh, hpx⟩ := frame_of_couple d fd c imgs f hnorm hf i
    f.toNat (by omega) (by omega) imageDataFrom imageDataTo hfrom hto
  refine ⟨fl (fl (1 / (f : ℚ)) * (f : ℚ)), fl (1 - fl (fl (1 / (f : ℚ)) * (f : ℚ))),
    by rw [hch]; rfl, by rw [hch]; rfl, p1, p2, q1, q2, t, c1, frame, hrun, hidx,
    hw.trans hwT.symm, hh.trans hhT.symm, ?_⟩
  intro x y hx hy
  rw [hpx x y (by omega) (by omega), hcast]
  exact last_frame_pixel _ _ _ _ p1 p2 q1 q2 (htransp x y)

theorem normalized_single : Normalized canvas2x1 [imageA] := by
  intro img himg
  simp only [List.mem_singleton] at himg
  subst himg
  exact ⟨rfl, rfl, fun x y h => absurd h (show ¬ (red.a = 0) by decide)⟩

/-- Claim C9 fails as stated: for the single opaque red image A, 100 ms at 50 Hz,
pixel 0 of the first of the 5 frames is (255, 0, 0, 214), not (255, 0, 0, 255). -/
theorem single_image_frame_not_identical :
    framesPerTransition (.finite 100) (calculateFrameDurationMs (.finite 50))
        [imageA].length = .finite 5 ∧
    (createTransitionImageDatasUsingCanvas (.finite 100) (calculateFrameDurationMs (.finite 50))
        canvas2x1 [imageA]).map
      (fun r => (r.1.allTransitionFrames[0]?).map (fun (frame : ImageData) => frame.px 0 0))
      = some (some ⟨255, 0, 0, 214⟩) ∧
    imageA.px 0 0 = ⟨255, 0, 0, 255⟩ ∧
    (createTransitionImageDatasUsingCanvas (.finite 100) (calculateFrameDurationMs (.finite 50))
        canvas2x1 [imageA]).map
      (fun r => (r.1.allTransitionFrames[0]?).map (fun (frame : ImageData) => frame.px 0 0))
      ≠ some (some (imageA.px 0 0)) := by
  decide!

/-- Claim C9, amended: a single normalised image is duplicated as from and to of one
couple; for a finite f = framesPerTransition >= 1 the call returns f frames, frame k
being what getImageData reads after the image is drawn at globalAlpha opacityFrom and
again at globalAlpha opacityTo on the cleared canvas; the last frame has the size of
the source and equals it pixel for pixel in all four channels. -/
theorem single_image_frames (d fd : JSNumber) (c : Canvas) (img : ImageData) (f : ℤ)
    (hnorm : Normalized c [img])
    (hf : framesPerTransition d fd [img].length = .finite (f : ℚ)) (hf1 : 1 ≤ f) :
    pushFirstIfSingle [img] = [img, img] ∧
    ∃ t c1, createTransitionImageDatasUsingCanvas d fd c [img] = some (t, c1) ∧
      t.initialFrame = img ∧
      t.allTransitionFrames.length = f.toNat ∧
      (∀ k : ℕ, 1 ≤ k → (k : ℤ) ≤ f →
        t.allTransitionFrames[k - 1]?
          = some ((((((c.clearRect c.width c.height).setGlobalAlpha
                (.finite (fl (1 - fl (fl (1 / (f : ℚ)) * (k : ℚ)))))).drawImage
                  img.width img.height (createImageBitmap img img.width img.height).px).setGlobalAlpha
                (.finite (fl (fl (1 / (f : ℚ)) * (k : ℚ))))).drawImage
                  img.width img.height (createImageBitmap img img.width img.height).px).getImageData
              img.width img.height)) ∧
      ∃ last, t.allTransitionFrames[f.toNat - 1]? = some last ∧
        last.width = img.width ∧ last.height = img.height ∧
        ∀ x y, x < img.width → y < img.height → last.px x y = img.px x y := by
  obtain ⟨hw, hh, htransp⟩ := hnorm img (List.mem_singleton.mpr rfl)
  have hch := changeInTransparency_finite d fd [img].length f (by omega) hf
  have hcast : ((f.toNat : ℕ) : ℚ) = (f : ℚ) := by
    have : ((f.toNat : ℕ) : ℤ) = f := Int.toNat_of_nonneg (by omega)
    exact_mod_cast this
  have hrun := createTransition_eq d fd c [img] img f rfl hf
  refine ⟨rfl, _, _, hrun, rfl, ?_, ?_, ?_⟩
  · rw [couplesLoop_length]
    show (2 - 1) * _ = _
    omega
  · intro k hk1 hk
    have hkn : k - 1 < f.toNat := by omega
    simp only
    rw [hch]
    have := couplesLoop_getElem? f.toNat (fl (1 / (f : ℚ))) img.width img.height
      (pushFirstIfSingle [img]) c c rfl rfl
      (fun k hk0 hkf => opacity_range f k hk0 (by omega)) 0 (k - 1) hkn img img rfl rfl
    rw [Nat.zero_mul, Nat.zero_add, Nat.sub_add_cancel hk1] at this
    rw [this, transitionFrame_calls]
    rfl
  · obtain ⟨t, c1, frame, hrun2, hidx, hfw, hfh, hpx⟩ := frame_of_couple d fd c [img] f hnorm hf 0
      f.toNat (by omega) (by omega) img img rfl rfl
    rw [hrun] at hrun2
    simp only [Option.some.injEq] at hrun2
    have ht : t.allTransitionFrames = (couplesLoop f.toNat (changeInTransparency d fd [img].length)
        img.width img.height (pushFirstIfSingle [img]) c).1 := by
      rw [← (Prod.mk.inj hrun2).1]
    rw [Nat.zero_mul, Nat.zero_add, ht] at hidx
    obtain ⟨p1, p2, q1, q2⟩ := last_opacity_range f hf1
    refine ⟨frame, hidx, hfw.trans hw.symm, hfh.trans hh.symm, ?_⟩
    intro x y hx hy
    rw [hpx x y (by omega) (by omega), hcast]
    exact last_frame_pixel _ _ _ _ p1 p2 q1 q2 (htransp x y)

theorem linearBlendPixel_one (pxFrom pxTo : Pixel) : linearBlendPixel pxFrom pxTo 1 = pxTo := by
  unfold linearBlendPixel
  simp only [sub_self, mul_zero, zero_add, mul_one, toByte_natCast]

/-- Claim C3 fails as stated: with images A (red) and B (blue) of 2 x 1 pixels,
100 ms at 50 Hz give 5 frames; at the opacity of frame 3 the linear formula gives
(102, 0, 153, 255), but pixel 0 of frame 3 has R < 102, B > 153 and alpha < 255. -/
theorem blend_step_not_linear :
    framesPerTransition (.finite 100) (calculateFrameDurationMs (.finite 50))
        [imageA, imageB].length = .finite 5 ∧
    jsMul (changeInTransparency (.finite 100) (calculateFrameDurationMs (.finite 50))
        [imageA, imageB].length) (.finite 3) = .finite (fl (fl (1 / 5) * 3)) ∧
    linearBlendPixel (imageA.px 0 0) (imageB.px 0 0) (fl (fl (1 / 5) * 3)) = ⟨102, 0, 153, 255⟩ ∧
    (createTransitionImageDatasUsingCanvas (.finite 100) (calculateFrameDurationMs (.finite 50))
        canvas2x1 [imageA, imageB]).map
      (fun r => (r.1.allTransitionFrames[2]?).map (fun (frame : ImageData) =>
        decide (((frame.px 0 0).r : ℕ) < 102 ∧ 153 < ((frame.px 0 0).b : ℕ)
          ∧ ((frame.px 0 0).a : ℕ) < 255)))
      = some (some true) ∧
    (createTransitionImageDatasUsingCanvas (.finite 100) (calculateFrameDurationMs (.finite 50))
        canvas2x1 [imageA, imageB]).map
      (fun r => (r.1.allTransitionFrames[2]?).map (fun (frame : ImageData) => frame.px 0 0))
      ≠ some (some (linearBlendPixel (imageA.px 0 0) (imageB.px 0 0) (fl (fl (1 / 5) * 3)))) := by
  decide!

/-- Claim C3, amended: for two rasters of the same size on a canvas that holds them,
the frame of the blending step in round k of f is what getImageData reads after
clearRect, drawImage of from at globalAlpha opacityFrom and drawImage of to at
globalAlpha opacityTo; it has the size of from; and in the last round (k = f), when
the transparent pixels of to are transparent black, each channel of each pixel equals
round(from_channel * (1 - 1) + to_channel * 1), the to channel. -/
theorem blend_step_frame (c : Canvas) (imageDataFrom imageDataTo : ImageData) (f : ℤ) (k : ℕ)
    (hk1 : 1 ≤ k) (hk : (k : ℤ) ≤ f)
    (hdimW : imageDataTo.width = imageDataFrom.width)
    (hdimH : imageDataTo.height = imageDataFrom.height)
    (hcw : imageDataFrom.width ≤ c.width) (hch : imageDataFrom.height ≤ c.height)
    (hT : ∀ x y, (imageDataTo.px x y).a = 0 → imageDataTo.px x y = Pixel.transparent) :
    (transitionFrame
        (createImageBitmap imageDataFrom imageDataFrom.width imageDataFrom.height)
        (createImageBitmap imageDataTo imageDataFrom.width imageDataFrom.height)
        (.finite (fl (1 / (f : ℚ)))) imageDataFrom.width imageDataFrom.height k c).1
      = (((((c.clearRect c.width c.height).setGlobalAlpha
            (.finite (fl (1 - fl (fl (1 / (f : ℚ)) * (k : ℚ)))))).drawImage
              imageDataFrom.width imageDataFrom.height
              (createImageBitmap imageDataFrom imageDataFrom.width imageDataFrom.height).px).setGlobalAlpha
            (.finite (fl (fl (1 / (f : ℚ)) * (k : ℚ))))).drawImage
              imageDataFrom.width imageDataFrom.height
              (createImageBitmap imageDataTo imageDataFrom.width imageDataFrom.height).px).getImageData
          imageDataFrom.width imageDataFrom.height ∧
    (transitionFrame
        (createImageBitmap imageDataFrom imageDataFrom.width imageDataFrom.height)
        (createImageBitmap imageDataTo imageDataFrom.width imageDataFrom.height)
        (.finite (fl (1 / (f : ℚ)))) imageDataFrom.width imageDataFrom.height k c).1.width
      = imageDataFrom.width ∧
    (transitionFrame
        (createImageBitmap imageDataFrom imageDataFrom.width imageDataFrom.height)
        (createImageBitmap imageDataTo imageDataFrom.width imageDataFrom.height)
        (.finite (fl (1 / (f : ℚ)))) imageDataFrom.width imageDataFrom.height k c).1.height
      = imageDataFrom.height ∧
    ((k : ℤ) = f → ∀ x y, x < imageDataFrom.width → y < imageDataFrom.height →
      (transitionFrame
          (createImageBitmap imageDataFrom imageDataFrom.width imageDataFrom.height)
          (createImageBitmap imageDataTo imageDataFrom.width imageDataFrom.height)
          (.finite (fl (1 / (f : ℚ)))) imageDataFrom.width imageDataFrom.height k c).1.px x y
        = linearBlendPixel (imageDataFrom.px x y) (imageDataTo.px x y) 1) := by
  refine ⟨rfl, rfl, rfl, ?_⟩
  intro hkf x y hx hy
  have hf1 : (1 : ℤ) ≤ f := by omega
  obtain ⟨h0, h1, g0, g1⟩ := opacity_range f k (by omega) hk
  rw [transitionFrame_px _ _ (fl (1 / (f : ℚ))) _ _ k c h0 h1 g0 g1 x y hx hy
    (by omega) (by omega) hx hy hx hy]
  simp only [createImageBitmap]
  rw [if_pos ⟨by omega, by omega⟩, if_pos ⟨hx, hy⟩, linearBlendPixel_one]
  have hcast : (k : ℚ) = (f : ℚ) := by exact_mod_cast hkf
  obtain ⟨p1, p2, q1, q2⟩ := last_opacity_range f hf1
  rw [hcast]
  exact last_frame_pixel _ _ _ _ p1 p2 q1 q2 (hT x y)

theorem blend_step_frame_witness :
    (1 ≤ 5 ∧ ((5 : ℕ) : ℤ) ≤ 5 ∧ imageB.width = imageA.width ∧ imageB.height = imageA.height ∧
      imageA.width ≤ canvas2x1.width ∧ imageA.height ≤ canvas2x1.height ∧
      ∀ x y, (imageB.px x y).a = 0 → imageB.px x y = Pixel.transparent) ∧
    ((transitionFrame
        (createImageBitmap imageA imageA.width imageA.height)
        (createImageBitmap imageB imageA.width imageA.height)
        (.finite (fl (1 / ((5 : ℤ) : ℚ)))) imageA.width imageA.height 5 canvas2x1).1
      = (((((canvas2x1.clearRect canvas2x1.width canvas2x1.height).setGlobalAlpha
            (.finite (fl (1 - fl (fl (1 / ((5 : ℤ) : ℚ)) * ((5 : ℕ) : ℚ)))))).drawImage
              imageA.width imageA.height
              (createImageBitmap imageA imageA.width imageA.height).px).setGlobalAlpha
            (.finite (fl (fl (1 / ((5 : ℤ) : ℚ)) * ((5 : ℕ) : ℚ))))).drawImage
              imageA.width imageA.height
              (createImageBitmap imageB imageA.width imageA.height).px).getImageData
          imageA.width imageA.height ∧
    (transitionFrame
        (createImageBitmap imageA imageA.width imageA.height)
        (createImageBitmap imageB imageA.width imageA.height)
        (.finite (fl (1 / ((5 : ℤ) : ℚ)))) imageA.width imageA.height 5 canvas2x1).1.width
      = imageA.width ∧
    (transitionFrame
        (createImageBitmap imageA imageA.width imageA.height)
        (createImageBitmap imageB imageA.width imageA.height)
        (.finite (fl (1 / ((5 : ℤ) : ℚ)))) imageA.width imageA.height 5 canvas2x1).1.height
      = imageA.height ∧
    (((5 : ℕ) : ℤ) = 5 → ∀ x y, x < imageA.width → y < imageA.height →
      (transitionFrame
          (createImageBitmap imageA imageA.width imageA.height)
          (createImageBitmap imageB imageA.width imageA.height)
          (.finite (fl (1 / ((5 : ℤ) : ℚ)))) imageA.width imageA.height 5 canvas2x1).1.px x y
        = linearBlendPixel (imageA.px x y) (imageB.px x y) 1)) :=
  ⟨⟨by decide, by decide, rfl, rfl, by decide, by decide,
      fun x y h => absurd h (show ¬ (blue.a = 0) by decide)⟩,
    blend_step_frame canvas2x1 imageA imageB 5 5 (by decide) (by decide) rfl rfl
      (by decide) (by decide) (fun x y h => absurd h (show ¬ (blue.a = 0) by decide))⟩

theorem fl_neg_of_neg (x : ℚ) (hx : x < 0) : fl x < 0 := by
  obtain ⟨h1, _⟩ := binade_spec x hx.ne
  rw [abs_of_neg hx] at h1
  have hu := pow2_pos (binade x - 52)
  have e1 : pow2 (binade x) = ((2 ^ 52 : ℤ) : ℚ) * pow2 (binade x - 52) := by
    have : binade x = 52 + (binade x - 52) := by ring
    conv_lhs => rw [this, pow2_add]
    congr 1
  have hz : x / pow2 (binade x - 52) ≤ ((-(2 ^ 52) : ℤ) : ℚ) := by
    rw [div_le_iff₀ hu]
    push_cast
    push_cast at e1
    linarith
  have hr := roundHalfEven_le_of_le_intCast _ _ hz
  have hrq : (roundHalfEven (x / pow2 (binade x - 52)) : ℚ) < 0 := by
    have : roundHalfEven (x / pow2 (binade x - 52)) < 0 := by omega
    exact_mod_cast this
  unfold fl
  rw [if_neg hx.ne]
  exact mul_neg_of_neg_of_pos hrq hu

theorem fl_ne_zero (x : ℚ) (hx : x ≠ 0) : fl x ≠ 0 := by
  rcases lt_or_gt_of_ne hx with h | h
  · exact (fl_neg_of_neg x h).ne
  · exact (fl_pos x h).ne'

theorem roundOrOne_zero : roundOrOne 0 = 1 := by
  unfold roundOrOne
  norm_num

/-- Line 125 always yields a finite integer when duration and frame rate are finite. -/
theorem framesPerTransition_of_form (durationSeconds hertz : ℚ) (len : ℕ) :
    ∃ f : ℤ, framesPerTransition (jsMul (.finite durationSeconds) (.finite 1000))
        (calculateFrameDurationMs (.finite hertz)) len = .finite (f : ℚ) ∧
      ((durationSeconds = 0 ∨ hertz = 0) → f = 1) := by
  by_cases hz : hertz = 0
  · refine ⟨1, ?_, fun _ => rfl⟩
    subst hz
    have hfd : calculateFrameDurationMs (.finite 0) = .infinity false := by
      simp [calculateFrameDurationMs, jsDiv]
    rw [hfd]
    unfold framesPerTransition
    rw [jsMul_finite]
    have h1 : jsDiv (.finite (fl (durationSeconds * 1000))) (.infinity false) = .finite 0 := rfl
    rw [h1, jsDiv_finite _ _ (transitionAmount_ne_zero len), zero_div, fl_zero]
    have h2 : mathRound (.finite 0) = .finite 0 := by
      unfold mathRound
      norm_num
    rw [h2]
    simp [orOne]
  · have hfd : calculateFrameDurationMs (.finite hertz) = .finite (fl (1000 / hertz)) := by
      unfold calculateFrameDurationMs
      exact jsDiv_finite _ _ hz
    have hne : fl (1000 / hertz) ≠ 0 := fl_ne_zero _ (div_ne_zero (by norm_num) hz)
    rw [hfd, jsMul_finite]
    refine ⟨_, framesPerTransition_finite _ _ len hne, ?_⟩
    intro h0
    rcases h0 with h0 | h0
    · subst h0
      unfold scheduleQuotient
      simp [fl_zero, roundOrOne_zero]
    · exact absurd h0 hz

theorem foldl_submitEntry_images (objs : List ImageObject) (acc : List ImageObject) (s : Settings) :
    (objs.map FormEntry.image).foldl submitEntry (acc, s) = (acc ++ objs, s) := by
  induction objs generalizing acc with
  | nil => simp
  | cons o rest ih =>
    simp only [List.map_cons, List.foldl_cons, submitEntry]
    rw [ih]
    simp

theorem submit_form (s : Settings) (c : Canvas) (objs : List ImageObject)
    (duration hertz : JSNumber) :
    submit s c (objs.map FormEntry.image ++ [FormEntry.duration duration, FormEntry.hertz hertz])
      = (⟨hertz, calculateFrameDurationMs hertz, jsMul duration (.finite 1000)⟩,
          prepareTransition ⟨hertz, calculateFrameDurationMs hertz, jsMul duration (.finite 1000)⟩
            c objs) := by
  unfold submit
  simp only [List.foldl_append, foldl_submitEntry_images, List.foldl_cons, List.foldl_nil,
    submitEntry, List.nil_append]

/-- Claim C7 fails as stated: a form with images A and B, duration 0 and 50 Hz is not
rejected, it yields a frame sequence with one transition frame; so does duration 1 at
0 Hz, where frameDurationMs is Infinity; so does the direct call with
transitionDurationMs = 0. -/
theorem invalid_timing_not_rejected :
    ((submit Settings.initial Canvas.initial
        [FormEntry.image imageObjectA, FormEntry.image imageObjectB,
          FormEntry.duration (.finite 0), FormEntry.hertz (.finite 50)]).2.map
      (fun r => r.1.allTransitionFrames.length)) = some 1 ∧
    ((submit Settings.initial Canvas.initial
        [FormEntry.image imageObjectA, FormEntry.image imageObjectB,
          FormEntry.duration (.finite 1), FormEntry.hertz (.finite 0)]).2.map
      (fun r => r.1.allTransitionFrames.length)) = some 1 ∧
    calculateFrameDurationMs (.finite 0) = .infinity false ∧
    ((createTransitionImageDatasUsingCanvas (.finite 0) (calculateFrameDurationMs (.finite 50))
        canvas2x1 [imageA, imageB]).map
      (fun r => r.1.allTransitionFrames.length)) = some 1 := by
  decide!

/-- Claim C7, amended: a request with at least one image whose duration is <= 0 or
whose frame rate is <= 0 is not rejected: the submit handler stores duration * 1000
and 1000 / hertz unchecked, framesPerTransition is computed from them and is a finite
integer, and a frame sequence is returned whose initialFrame is the first normalised
image; when the duration or the frame rate is 0, framesPerTransition is 1 and there
are max(N, 2) - 1 transition frames. -/
theorem invalid_timing_still_generates (s : Settings) (c : Canvas)
    (imageObjects : List ImageObject) (durationSeconds hertz : ℚ)
    (hne : 1 ≤ imageObjects.length) (_hinvalid : durationSeconds ≤ 0 ∨ hertz ≤ 0) :
    ∃ t c1 first, ∃ f : ℤ,
      submit s c (imageObjects.map FormEntry.image
          ++ [FormEntry.duration (.finite durationSeconds), FormEntry.hertz (.finite hertz)])
        = (⟨.finite hertz, calculateFrameDurationMs (.finite hertz),
              jsMul (.finite durationSeconds) (.finite 1000)⟩, some (t, c1)) ∧
      framesPerTransition (jsMul (.finite durationSeconds) (.finite 1000))
          (calculateFrameDurationMs (.finite hertz)) imageObjects.length = .finite (f : ℚ) ∧
      (convertImageObjectsIntoImageDatas c imageObjects).1[0]? = some first ∧
      t.initialFrame = first ∧
      ((durationSeconds = 0 ∨ hertz = 0) →
        f = 1 ∧ t.allTransitionFrames.length = max imageObjects.length 2 - 1) := by
  have hlen : (convertImageObjectsIntoImageDatas c imageObjects).1.length = imageObjects.length := by
    rw [convert_eq, imageDatasLoop_length]
  obtain ⟨first, hfirst⟩ : ∃ first, (convertImageObjectsIntoImageDatas c imageObjects).1[0]?
      = some first :=
    ⟨_, List.getElem?_eq_getElem (by omega)⟩
  obtain ⟨f, hf, hf0⟩ := framesPerTransition_of_form durationSeconds hertz imageObjects.length
  have hf' : framesPerTransition (jsMul (.finite durationSeconds) (.finite 1000))
      (calculateFrameDurationMs (.finite hertz))
      (convertImageObjectsIntoImageDatas c imageObjects).1.length = .finite (f : ℚ) := by
    rw [hlen]; exact hf
  have hct := createTransition_eq (jsMul (.finite durationSeconds) (.finite 1000))
    (calculateFrameDurationMs (.finite hertz)) (convertImageObjectsIntoImageDatas c imageObjects).2
    (convertImageObjectsIntoImageDatas c imageObjects).1 first f hfirst hf'
  refine ⟨⟨first, (couplesLoop f.toNat
        (changeInTransparency (jsMul (.finite durationSeconds) (.finite 1000))
          (calculateFrameDurationMs (.finite hertz))
          (convertImageObjectsIntoImageDatas c imageObjects).1.length)
        first.width first.height
        (pushFirstIfSingle (convertImageObjectsIntoImageDatas c imageObjects).1)
        (convertImageObjectsIntoImageDatas c imageObjects).2).1⟩,
    (couplesLoop f.toNat
        (changeInTransparency (jsMul (.finite durationSeconds) (.finite 1000))
          (calculateFrameDurationMs (.finite hertz))
          (convertImageObjectsIntoImageDatas c imageObjects).1.length)
        first.width first.height
        (pushFirstIfSingle (convertImageObjectsIntoImageDatas c imageObjects).1)
        (convertImageObjectsIntoImageDatas c imageObjects).2).2,
    first, f, ?_, hf, hfirst, ?_, ?_⟩
  · rw [submit_form]
    unfold prepareTransition
    simp only
    rw [hct]
  · rfl
  intro h0
  have h1 := hf0 h0
  refine ⟨h1, ?_⟩
  simp only
  rw [couplesLoop_length, pushFirstIfSingle_length, hlen, pushedLength_eq_max _ hne, h1]
  simp

theorem invalid_timing_still_generates_witness :
    (1 ≤ [imageObjectA, imageObjectB].length ∧ ((1 : ℚ) ≤ 0 ∨ (0 : ℚ) ≤ 0)) ∧
    ∃ t c1 first, ∃ f : ℤ,
      submit Settings.initial Canvas.initial ([imageObjectA, imageObjectB].map FormEntry.image
          ++ [FormEntry.duration (.finite 1), FormEntry.hertz (.finite 0)])
        = (⟨.finite 0, calculateFrameDurationMs (.finite 0),
              jsMul (.finite 1) (.finite 1000)⟩, some (t, c1)) ∧
      framesPerTransition (jsMul (.finite 1) (.finite 1000))
          (calculateFrameDurationMs (.finite 0)) [imageObjectA, imageObjectB].length
        = .finite (f : ℚ) ∧
      (convertImageObjectsIntoImageDatas Canvas.initial [imageObjectA, imageObjectB]).1[0]?
        = some first ∧
      t.initialFrame = first ∧
      (((1 : ℚ) = 0 ∨ (0 : ℚ) = 0) →
        f = 1 ∧ t.allTransitionFrames.length = max [imageObjectA, imageObjectB].length 2 - 1) :=
  ⟨⟨by decide, Or.inr le_rfl⟩,
    invalid_timing_still_generates Settings.initial Canvas.initial
      [imageObjectA, imageObjectB] 1 0 (by decide) (Or.inr le_rfl)⟩

theorem assembler_frame_order_witness :
    (2 ≤ [imageA, imageB].length ∧
      framesPerTransition (.finite 100) (calculateFrameDurationMs (.finite 50))
        [imageA, imageB].length = .finite ((5 : ℤ) : ℚ) ∧
      (1 : ℤ) ≤ 5 ∧ 0 + 1 < [imageA, imageB].length ∧ 1 ≤ 3 ∧ ((3 : ℕ) : ℤ) ≤ 5) ∧
    ∃ t c1, createTransitionImageDatasUsingCanvas (.finite 100)
        (calculateFrameDurationMs (.finite 50)) canvas2x1 [imageA, imageB] = some (t, c1) ∧
      t.initialFrame = imageA ∧
      jsMul (changeInTransparency (.finite 100) (calculateFrameDurationMs (.finite 50))
          [imageA, imageB].length) (.finite ((3 : ℕ) : ℚ))
        = .finite (fl (fl (1 / ((5 : ℤ) : ℚ)) * ((3 : ℕ) : ℚ))) ∧
      jsSub (.finite 1) (jsMul (changeInTransparency (.finite 100)
          (calculateFrameDurationMs (.finite 50)) [imageA, imageB].length) (.finite ((3 : ℕ) : ℚ)))
        = .finite (fl (1 - fl (fl (1 / ((5 : ℤ) : ℚ)) * ((3 : ℕ) : ℚ)))) ∧
      t.allTransitionFrames[0 * (5 : ℤ).toNat + (3 - 1)]?
        = some ((((((canvas2x1.clearRect canvas2x1.width canvas2x1.height).setGlobalAlpha
              (.finite (fl (1 - fl (fl (1 / ((5 : ℤ) : ℚ)) * ((3 : ℕ) : ℚ)))))).drawImage
                imageA.width imageA.height
                (createImageBitmap imageA imageA.width imageA.height).px).setGlobalAlpha
              (.finite (fl (fl (1 / ((5 : ℤ) : ℚ)) * ((3 : ℕ) : ℚ))))).drawImage
                imageA.width imageA.height
                (createImageBitmap imageB imageA.width imageA.height).px).getImageData
            imageA.width imageA.height) ∧
      0 ≤ fl (fl (1 / ((5 : ℤ) : ℚ)) * ((3 : ℕ) : ℚ)) ∧
      fl (fl (1 / ((5 : ℤ) : ℚ)) * ((3 : ℕ) : ℚ)) ≤ 1 ∧
      |fl (fl (1 / ((5 : ℤ) : ℚ)) * ((3 : ℕ) : ℚ)) - ((3 : ℕ) : ℚ) / ((5 : ℤ) : ℚ)|
        ≤ ((3 : ℕ) : ℚ) / ((5 : ℤ) : ℚ) * (1 / 2 ^ 51) :=
  ⟨⟨by decide, by decide!, by decide, by decide, by decide, by decide⟩,
    assembler_frame_order (.finite 100) (calculateFrameDurationMs (.finite 50)) canvas2x1
      [imageA, imageB] 5 (by decide) (by decide!) (by decide) 0 3 (by decide) (by decide)
      (by decide)⟩

theorem renderTransition_plays_each_frame_once_witness :
    (1 ≤ (TransitionImageDatas.mk imageA [imageB, imageA]).allTransitionFrames.length) ∧
    ((renderTransition ⟨imageA, [imageB, imageA]⟩).drawn = [imageA] ∧
    (∀ j, j < (TransitionImageDatas.mk imageA [imageB, imageA]).allTransitionFrames.length →
      ∃ s frame, ticks ⟨imageA, [imageB, imageA]⟩ j (renderTransition ⟨imageA, [imageB, imageA]⟩)
          = some s ∧ s.pending = true ∧
        s.frameIndex = j ∧
        (TransitionImageDatas.mk imageA [imageB, imageA]).allTransitionFrames[j]? = some frame ∧
        ∃ s1, tick ⟨imageA, [imageB, imageA]⟩ s = some s1 ∧ s1.drawn = s.drawn ++ [frame]) ∧
    (∃ s, ticks ⟨imageA, [imageB, imageA]⟩
          (TransitionImageDatas.mk imageA [imageB, imageA]).allTransitionFrames.length
          (renderTransition ⟨imageA, [imageB, imageA]⟩) = some s ∧
      s.pending = false ∧
      s.drawn = imageA :: [imageB, imageA] ∧
      ∀ m, ticks ⟨imageA, [imageB, imageA]⟩
          ((TransitionImageDatas.mk imageA [imageB, imageA]).allTransitionFrames.length + m)
          (renderTransition ⟨imageA, [imageB, imageA]⟩) = some s)) :=
  ⟨by decide, renderTransition_plays_each_frame_once ⟨imageA, [imageB, imageA]⟩ (by decide)⟩

theorem last_frame_is_to_image_witness :
    (Normalized canvasAC normalizedAC ∧
      framesPerTransition (.finite 1000) (calculateFrameDurationMs (.finite 49))
        normalizedAC.length = .finite ((49 : ℤ) : ℚ) ∧
      (1 : ℤ) ≤ 49 ∧
      (pushFirstIfSingle normalizedAC)[0]? = some ((normalizedAC[0]?).getD imageA) ∧
      (pushFirstIfSingle normalizedAC)[0 + 1]? = some ((normalizedAC[1]?).getD imageA)) ∧
    ∃ opacityTo opacityFrom : ℚ,
      jsMul (changeInTransparency (.finite 1000) (calculateFrameDurationMs (.finite 49))
          normalizedAC.length) (.finite ((49 : ℤ) : ℚ)) = .finite opacityTo ∧
      jsSub (.finite 1) (jsMul (changeInTransparency (.finite 1000)
          (calculateFrameDurationMs (.finite 49)) normalizedAC.length) (.finite ((49 : ℤ) : ℚ)))
        = .finite opacityFrom ∧
      1 - 1 / 2 ^ 53 ≤ opacityTo ∧ opacityTo ≤ 1 ∧
      0 ≤ opacityFrom ∧ opacityFrom ≤ 1 / 2 ^ 53 ∧
      ∃ t c1 frame, createTransitionImageDatasUsingCanvas (.finite 1000)
          (calculateFrameDurationMs (.finite 49)) canvasAC normalizedAC = some (t, c1) ∧
        t.allTransitionFrames[0 * (49 : ℤ).toNat + ((49 : ℤ).toNat - 1)]? = some frame ∧
        frame.width = ((normalizedAC[1]?).getD imageA).width ∧
        frame.height = ((normalizedAC[1]?).getD imageA).height ∧
        ∀ x y, x < ((normalizedAC[1]?).getD imageA).width →
          y < ((normalizedAC[1]?).getD imageA).height →
          frame.px x y = ((normalizedAC[1]?).getD imageA).px x y :=
  ⟨⟨convert_normalized Canvas.initial [imageObjectA, imageObjectC], by decide!, by decide,
      rfl, rfl⟩,
    last_frame_is_to_image (.finite 1000) (calculateFrameDurationMs (.finite 49)) canvasAC
      normalizedAC 49 (convert_normalized Canvas.initial [imageObjectA, imageObjectC])
      (by decide!) (by decide) 0 ((normalizedAC[0]?).getD imageA)
      ((normalizedAC[1]?).getD imageA) (by rfl) (by rfl)⟩

theorem single_image_frames_witness :
    (Normalized canvas2x1 [imageA] ∧
      framesPerTransition (.finite 100) (calculateFrameDurationMs (.finite 50)) [imageA].length
        = .finite ((5 : ℤ) : ℚ) ∧ (1 : ℤ) ≤ 5) ∧
    (pushFirstIfSingle [imageA] = [imageA, imageA] ∧
    ∃ t c1, createTransitionImageDatasUsingCanvas (.finite 100)
        (calculateFrameDurationMs (.finite 50)) canvas2x1 [imageA] = some (t, c1) ∧
      t.initialFrame = imageA ∧
      t.allTransitionFrames.length = (5 : ℤ).toNat ∧
      (∀ k : ℕ, 1 ≤ k → (k : ℤ) ≤ 5 →
        t.allTransitionFrames[k - 1]?
          = some ((((((canvas2x1.clearRect canvas2x1.width canvas2x1.height).setGlobalAlpha
                (.finite (fl (1 - fl (fl (1 / ((5 : ℤ) : ℚ)) * (k : ℚ)))))).drawImage
                  imageA.width imageA.height
                  (createImageBitmap imageA imageA.width imageA.height).px).setGlobalAlpha
                (.finite (fl (fl (1 / ((5 : ℤ) : ℚ)) * (k : ℚ))))).drawImage
                  imageA.width imageA.height
                  (createImageBitmap imageA imageA.width imageA.height).px).getImageData
              imageA.width imageA.height)) ∧
      ∃ last, t.allTransitionFrames[(5 : ℤ).toNat - 1]? = some last ∧
        last.width = imageA.width ∧ last.height = imageA.height ∧
        ∀ x y, x < imageA.width → y < imageA.height → last.px x y = imageA.px x y) :=
  ⟨⟨normalized_single, by decide!, by decide⟩,
    single_image_frames (.finite 100) (calculateFrameDurationMs (.finite 50)) canvas2x1 imageA 5
      normalized_single (by decide!) (by decide)⟩

end PixelColorTransition
